import Mathlib

/-!
Shallow embedding, in Lean 4, of the 22lan toolchain (repository `ark231/22lan`),
used to check the sentences of the natural-language specification against the code.
Every definition mirrors a concrete Python function of the repository; the source
file and function are named in the doc comment of each definition.  Python strings
are modelled as `List Char` or `String`, Python `bytes` as `List Nat` (each element
kept below 256 by the modelled operations), Python `int` as `Int` (or `Nat` where
the value is provably non-negative), and Python exceptions as the `Except PyErr`
monad.
-/

set_option autoImplicit false

namespace Lan22

/-- Python exceptions raised by the modelled code.  `binasciiError` models
`binascii.Error`; in CPython that class is a subclass of `ValueError`.
`outOfFuel` is not a Python exception: it is the result of a fuel-bounded model of
a Python recursion that has not returned within the given fuel (an execution that,
in Python, is still running or eventually dies with `RecursionError`). -/
inductive PyErr where
  | valueError (msg : String)
  | keyError (key : String)
  | indexError
  | typeError (msg : String)
  | overflowError
  | binasciiError (msg : String)
  | outOfFuel
  deriving DecidableEq, Repr

/-- `binascii.Error` and the plain `ValueError`s are both `ValueError`s in Python
(`binascii.Error` subclasses `ValueError`). -/
def PyErr.isValueError : PyErr → Bool
  | .valueError _ => true
  | .binasciiError _ => true
  | _ => false

/-- Python `lst[i]` for a non-negative index, raising `IndexError` when out of range. -/
def pyGet {α : Type} (l : List α) (i : Nat) : Except PyErr α :=
  match l.get? i with
  | some x => .ok x
  | none => .error .indexError

/-- Python `s[i]` on a string, including Python's negative-index semantics
(`s[-1]` is the last character); out of range raises `IndexError`. -/
def pyStrIndex (s : List Char) (i : Int) : Except PyErr Char :=
  if 0 ≤ i then pyGet s i.toNat
  else if (-i).toNat ≤ s.length then pyGet s (s.length - (-i).toNat)
  else .error .indexError

/-- Python `s.index(c)` on a string: index of the first occurrence of `c`,
raising `ValueError` when `c` does not occur. -/
def pyStrFind (s : List Char) (c : Char) : Except PyErr Nat :=
  match s.findIdx? (fun x => x == c) with
  | some i => .ok i
  | none => .error (.valueError "substring not found")

/-- Lookup in a Python `dict` modelled as an association list (Python dicts keep
insertion order, which an association list preserves; keys are unique). -/
def dictGet {α β : Type} [BEq α] (d : List (α × β)) (k : α) : Option β :=
  match d with
  | [] => none
  | (a, b) :: rest => if a == k then some b else dictGet rest k

/-- Assignment `d[k] = v` on a Python `dict` modelled as an association list:
an existing key is updated in place, a new key is appended at the end. -/
def dictSet {α β : Type} [BEq α] (d : List (α × β)) (k : α) (v : β) : List (α × β) :=
  match d with
  | [] => [(k, v)]
  | (a, b) :: rest => if a == k then (k, v) :: rest else (a, b) :: dictSet rest k v

/-- The character class `[a-zA-Z0-9_]` used by the regexes of the repository. -/
def isWordChar (c : Char) : Bool := c.isAlphanum || c == '_'

/-- The character class `[a-z0-9_]` of the `operation_match` regex. -/
def isLowerWordChar (c : Char) : Bool := c.isLower || c.isDigit || c == '_'

/-- Python `s.strip(" ")`: remove leading and trailing space characters (only
spaces, unlike Python's default `strip()`). -/
def stripSpaces (s : String) : String :=
  ⟨((s.toList.dropWhile (fun c => c == ' ')).reverse.dropWhile (fun c => c == ' ')).reverse⟩

/-- Python `s.split(",")` followed by `strip(" ")` on every item, the way
argument lists are parsed throughout the repository. -/
def splitCommaStrip (s : String) : List String :=
  (s.splitOn ",").map stripSpaces

/-- Digits of `n` in base 2, most significant first, computed with explicit fuel so
that the definition is structural (the fuel `n` itself always suffices). -/
def binAux : Nat → Nat → List Char
  | 0, _ => []
  | _, 0 => []
  | fuel + 1, n + 1 =>
    binAux fuel ((n + 1) / 2) ++ [if (n + 1) % 2 = 1 then '1' else '0']

/-- Python `f"{n:b}"` for a non-negative `n` (CPython prints minimal-width binary,
and `"0"` for zero). -/
def pyBin (n : Nat) : List Char :=
  if n = 0 then ['0'] else binAux n n

/-- Python `f"{v:b}"` for an arbitrary `int` (a negative value is printed with a
leading `'-'` followed by the binary digits of its absolute value). -/
def pyBinInt (v : Int) : List Char :=
  if v < 0 then '-' :: pyBin v.natAbs else pyBin v.toNat

/-- Python `f"{n:o}"`: octal digits, most significant first (via `Nat.toDigits`,
which is fuel-structural and matches CPython's formatting for base 8). -/
def pyOct (n : Nat) : List Char := Nat.toDigits 8 n

/-- Value of a big-endian binary digit string, the inverse used in proofs. -/
def binVal (l : List Char) : Nat :=
  l.foldl (fun a c => 2 * a + (if c = '1' then 1 else 0)) 0

/-! ## The compile-time bit stack (`Stack`, src/langs/base.py:56-74)

The Python class stores a single unbounded integer `_value`; there is no record of
how many bits have been pushed and no underflow detection of any kind. -/

/-- `Stack` (src/langs/base.py:56-74): `_value` is a plain Python `int`, initially 0. -/
structure Stack where
  val : Nat
  deriving DecidableEq, Repr

/-- `Stack.push1` (base.py:62-64): `_value <<= 1; _value |= value`. -/
def Stack.push1 (s : Stack) (v : Nat) : Stack :=
  ⟨(s.val <<< 1) ||| v⟩

/-- `Stack.pop8` (base.py:66-69): returns `_value & 0xff` and shifts `_value`
right by 8.  There is no check that 8 bits were ever pushed. -/
def Stack.pop8 (s : Stack) : Nat × Stack :=
  (s.val &&& 0xff, ⟨s.val >>> 8⟩)

/-- `Stack.pop64` (base.py:71-74): returns `_value & 0xFFFF_FFFF_FFFF_FFFF` and
shifts `_value` right by 64.  There is no underflow check. -/
def Stack.pop64 (s : Stack) : Nat × Stack :=
  (s.val &&& 0xFFFFFFFFFFFFFFFF, ⟨s.val >>> 64⟩)

/-! ## Base32 (CPython `base64` module, as used by the repository) -/

/-- The RFC 4648 base32 alphabet used by CPython's `base64.b32encode`/`b32decode`. -/
def b32alphabet : List Char := "ABCDEFGHIJKLMNOPQRSTUVWXYZ234567".toList

/-- The eight bits of one byte, most significant first. -/
def byteBits (b : Nat) : List Bool :=
  [b.testBit 7, b.testBit 6, b.testBit 5, b.testBit 4,
   b.testBit 3, b.testBit 2, b.testBit 1, b.testBit 0]

/-- Split a bit string into groups of five (the last group may be shorter). -/
def chunks5 : List Bool → List (List Bool)
  | a :: b :: c :: d :: e :: rest => [a, b, c, d, e] :: chunks5 rest
  | [] => []
  | l => [l]

/-- Split a character string into groups of eight (the last group may be shorter),
the quanta of CPython's `_b32decode`. -/
def chunks8 : List Char → List (List Char)
  | a :: b :: c :: d :: e :: f :: g :: h :: rest =>
    [a, b, c, d, e, f, g, h] :: chunks8 rest
  | [] => []
  | l => [l]

/-- Value of a bit group, most significant first. -/
def bitsVal (l : List Bool) : Nat :=
  l.foldl (fun a b => 2 * a + (if b then 1 else 0)) 0

/-- `base64.b32encode(data).decode().rstrip("=")`: RFC 4648 base32 without the
`'='` padding, exactly `⌈8·n/5⌉` symbols, the trailing symbol zero-filled. -/
def b32encodeNoPad (bytes : List Nat) : List Char :=
  (chunks5 ((bytes.map byteBits).flatten)).map
    (fun c => b32alphabet.getD (bitsVal (c ++ List.replicate (5 - c.length) false)) 'A')

/-- Index of a character in the base32 alphabet (`_b32rev` in CPython). -/
def b32rev (c : Char) : Option Nat :=
  b32alphabet.findIdx? (fun x => x == c)

/-- Big-endian bytes of `n`, exactly `k` bytes (`int.to_bytes(k, "big")` after its
range check has passed). -/
def toBytesBE : Nat → Nat → List Nat
  | 0, _ => []
  | k + 1, n => toBytesBE k (n / 256) ++ [n % 256]

/-- Python `n.to_bytes(k, "big")` for a non-negative `n`: `OverflowError` when
`n` does not fit. -/
def pyToBytes (k : Nat) (n : Nat) : Except PyErr (List Nat) :=
  if n < 256 ^ k then .ok (toBytesBE k n) else .error .overflowError

/-- Accumulated value of one ≤8-character quantum in `_b32decode`
(`acc = (acc << 5) + b32rev[c]`, `binascii.Error` on a character outside the
alphabet). -/
def quantaVal (q : List Char) : Except PyErr Nat :=
  q.foldlM
    (fun a c =>
      match b32rev c with
      | some v => .ok (32 * a + v)
      | none => .error (.binasciiError "Non-base32 digit found"))
    0

/-- The quanta loop of `_b32decode`: decoded byte string (5 bytes per quantum,
also for the trailing partial quantum) together with the accumulator of the last
quantum (`acc` stays 0 when there is no quantum, and is then never used). -/
def decodeQuanta : List (List Char) → Except PyErr (List Nat × Nat)
  | [] => .ok ([], 0)
  | q :: qs => do
    let a ← quantaVal q
    match qs with
    | [] => .ok (toBytesBE 5 a, a)
    | _ :: _ => do
      let (rest, last) ← decodeQuanta qs
      .ok (toBytesBE 5 a ++ rest, last)

/-- CPython `base64._b32decode` with the default arguments (`casefold=False`,
`map01=None`), which is what `base64.b32decode` calls in the repository: length
must be a multiple of 8; `'='` padding is stripped on the right and its count must
be one of 0, 1, 3, 4, 6; the final five decoded bytes are then cut down to the
`leftover` length. -/
def pyB32Decode (s : List Char) : Except PyErr (List Nat) := do
  if s.length % 8 ≠ 0 then .error (.binasciiError "Incorrect padding")
  else
    let stripped := (s.reverse.dropWhile (fun c => c == '=')).reverse
    let padchars := s.length - stripped.length
    let (decoded, lastAcc) ← decodeQuanta (chunks8 stripped)
    if ¬ (padchars = 0 ∨ padchars = 1 ∨ padchars = 3 ∨ padchars = 4 ∨ padchars = 6) then
      .error (.binasciiError "Incorrect padding")
    else if padchars ≠ 0 ∧ decoded ≠ [] then do
      let last ← pyToBytes 5 (lastAcc <<< (5 * padchars))
      let leftover := (43 - 5 * padchars) / 8
      .ok (decoded.take (decoded.length - 5) ++ last.take leftover)
    else .ok decoded

/-! ## The stack-initializer codec
(`MacroResolver._encode_stack_initializer`, src/libs/macro_resolver.py:68-85, and
`BasicGeneratorFromLan22._decompress_base32` / `_decode_stack_initializer`,
src/langs/base.py:104-143). -/

/-- What the encoder emits when a run of `count` copies of `p` ends: runs longer
than 6 become `p\S<octal count>\E`, shorter runs are written out. -/
def runOut (p : Char) (count : Nat) : List Char :=
  if count > 6 then p :: '\\' :: 'S' :: (pyOct count ++ ['\\', 'E'])
  else List.replicate count p

/-- The run-length loop of `_encode_stack_initializer` (macro_resolver.py:70-83).
`prev = none` models Python's initial `prev_char = ""`; the caller appends the
`"\0"` sentinel that flushes the final run. -/
def rleAux : Option Char → Nat → List Char → List Char
  | _, _, [] => []
  | prev, count, c :: rest =>
    match prev with
    | some p =>
      if c = p then rleAux (some p) (count + 1) rest
      else runOut p count ++ rleAux (some c) 1 rest
    | none => rleAux (some c) 1 rest

/-- `str.maketrans("01", "OI")` applied by the encoder (macro_resolver.py:84). -/
def translate01 (l : List Char) : List Char :=
  l.map (fun c => if c = '0' then 'O' else if c = '1' then 'I' else c)

/-- `str.maketrans("OI", "01")` applied by the decoder to run-length counts
(base.py:121). -/
def transOI (l : List Char) : List Char :=
  l.map (fun c => if c = 'O' then '0' else if c = 'I' then '1' else c)

/-- `MacroResolver._encode_stack_initializer` (macro_resolver.py:68-85):
unpadded base32, then run-length compression of runs longer than 6, then the
`01 → OI` translation (which only affects the octal run counts, since the base32
alphabet contains no `0` or `1`). -/
def encodeStackInitValues (values : List Nat) : List Char :=
  translate01 (rleAux none 0 (b32encodeNoPad values ++ [Char.ofNat 0]))

/-- Strip one optional leading sign, as `int()` does. -/
def pyIntSignSplit (l : List Char) : Int × List Char :=
  match l with
  | '-' :: r => (-1, r)
  | '+' :: r => (1, r)
  | r => (1, r)

/-- Python `int(s, 8)` restricted to an optional sign followed by octal digits
(the only shapes that can reach it here; CPython additionally strips whitespace
and allows underscores, which cannot occur in the repository's encoded data). -/
def pyIntOctal (l : List Char) : Except PyErr Int :=
  if (pyIntSignSplit l).2 ≠ [] ∧
      (pyIntSignSplit l).2.all (fun c => decide ('0' ≤ c) && decide (c ≤ '7')) then
    .ok ((pyIntSignSplit l).1
      * (pyIntSignSplit l).2.foldl (fun a c => 8 * a + (c.toNat - '0'.toNat)) 0)
  else .error (.valueError "invalid literal for int with base 8")

/-- The state machine of `BasicGeneratorFromLan22._decompress_base32`
(base.py:104-131), written so that the emitted characters are returned rather
than accumulated; `int(repeat, 8)` failing is a `ValueError`.  The arguments are
`is_escaped`, `is_repeat`, `prev_char` (`none` for Python's `""`), `repeat`, and
the remaining input. -/
def decompAux : Bool → Bool → Option Char → List Char → List Char → Except PyErr (List Char)
  | _, _, _, _, [] => .ok []
  | isEsc, isRep, prev, rep, c :: rest =>
    if c = '\\' then decompAux true isRep prev rep rest
    else if isEsc then
      if c = 'O' ∨ c = 'I' ∨ c = '2' then do
        let r ← decompAux false isRep prev rep rest
        .ok ('\\' :: c :: r)
      else if c = 'S' then decompAux false true prev rep rest
      else if c = 'E' then do
        let count ← pyIntOctal (transOI rep)
        let r ← decompAux false false prev [] rest
        .ok ((match prev with
              | some p => List.replicate (count - 1).toNat p
              | none => []) ++ r)
      else do
        let r ← decompAux false isRep prev rep rest
        .ok ('\\' :: c :: r)
    else if isRep then decompAux isEsc isRep prev (rep ++ [c]) rest
    else do
      let r ← decompAux isEsc isRep (some c) rep rest
      .ok (c :: r)

/-- `BasicGeneratorFromLan22._decompress_base32` (base.py:104-131). -/
def decompressBase32 (s : List Char) : Except PyErr (List Char) :=
  decompAux false false none [] s

/-- Python `s.split(sep)` for a one-character separator. -/
def splitOnChar (sep : Char) : List Char → List (List Char)
  | [] => [[]]
  | c :: rest =>
    match splitOnChar sep rest with
    | [] => [[]]
    | g :: gs => if c = sep then [] :: g :: gs else (c :: g) :: gs

/-- The loop body of `_decode_stack_initializer` (base.py:137-143): a segment
of length < 2 is skipped; otherwise its first character selects the stack via
`"OI2".index` and its remainder is base32-decoded after re-padding with
`'=' * (8 - len % 8)` — exactly as written in the source, so a payload whose
length is already a multiple of 8 gets eight pad characters appended. -/
def seedSegment (acc : List Nat × List Nat × List Nat) (seg : List Char) :
    Except PyErr (List Nat × List Nat × List Nat) :=
  if seg.length < 2 then .ok acc
  else do
    let sid ← pyStrFind ("OI2".toList) (seg.headD 'O')
    let payload := seg.drop 1
    let bytes ← pyB32Decode (payload ++ List.replicate (8 - payload.length % 8) '=')
    match sid with
    | 0 => .ok (acc.1 ++ bytes, acc.2.1, acc.2.2)
    | 1 => .ok (acc.1, acc.2.1 ++ bytes, acc.2.2)
    | _ => .ok (acc.1, acc.2.1, acc.2.2 ++ bytes)

/-- `BasicGeneratorFromLan22._decode_stack_initializer` (base.py:133-143):
prepend `\1` when the accumulated text does not start with a backslash,
decompress, split on backslashes, and seed the byte stacks segment by segment.
Returns the seeded `(initial_s0, initial_s1, initial_s2)`. -/
def decodeStackInit (s : List Char) : Except PyErr (List Nat × List Nat × List Nat) :=
  match s with
  | [] => .error .indexError
  | c0 :: _ => do
    let s1 := if c0 ≠ '\\' then '\\' :: '1' :: s else s
    let d ← decompressBase32 s1
    (splitOnChar '\\' d).foldlM seedSegment ([], [], [])

/-- The tagged initializer line emitted by the `stack` macro branch
(macro_resolver.py:136): `\` + `"OI2"[stack_id]` + encoded payload. -/
def taggedInitLine (stackId : Int) (values : List Nat) : Except PyErr (List Char) := do
  let tag ← pyStrIndex ("OI2".toList) stackId
  .ok ('\\' :: tag :: encodeStackInitValues values)

/-! ## Python integer parsing -/

/-- Is `c` a digit of the given base (2, 8, 10 or 16)? -/
def isBaseDigit (base : Nat) (c : Char) : Bool :=
  if base = 16 then c.isDigit || ('a' ≤ c && c ≤ 'f') || ('A' ≤ c && c ≤ 'F')
  else c.isDigit && c.toNat - '0'.toNat < base

/-- Value of one digit (hex letters included). -/
def baseDigitVal (c : Char) : Nat :=
  if c.isDigit then c.toNat - '0'.toNat
  else if 'a' ≤ c && c ≤ 'f' then c.toNat - 'a'.toNat + 10
  else c.toNat - 'A'.toNat + 10

/-- CPython's underscore placement rule for numeric literals: underscores must be
surrounded by digits (the flag records whether the previous character was a
digit; pass `true` to allow a leading underscore right after a base prefix). -/
def digitsOk (isD : Char → Bool) : Bool → List Char → Bool
  | afterDigit, [] => afterDigit
  | afterDigit, '_' :: rest => afterDigit && digitsOk isD false rest
  | _, c :: rest => isD c && digitsOk isD true rest

/-- Value of a digit string with underscores removed. -/
def digitsVal (base : Nat) (l : List Char) : Nat :=
  (l.filter (fun c => c ≠ '_')).foldl (fun a c => base * a + baseDigitVal c) 0

/-- Value of a plain decimal digit string (as used for the regex group
`[0-9]+`, where no sign or underscore can occur). -/
def decVal (l : List Char) : Nat := digitsVal 10 l

/-- Python `int(s, 0)`: an optional sign, then a `0x`/`0o`/`0b` prefixed literal
or a decimal literal; a decimal literal with a leading zero must be all zeros.
(CPython also strips surrounding whitespace, which the regex character class
feeding this function cannot produce.) -/
def pyInt0 (l : List Char) : Except PyErr Int :=
  let signAndBody : Int × List Char :=
    match l with
    | '-' :: r => (-1, r)
    | '+' :: r => (1, r)
    | r => (1, r)
  let body := signAndBody.2
  let prefixed : Option (Nat × List Char) :=
    match body with
    | '0' :: 'x' :: r => some (16, r)
    | '0' :: 'X' :: r => some (16, r)
    | '0' :: 'o' :: r => some (8, r)
    | '0' :: 'O' :: r => some (8, r)
    | '0' :: 'b' :: r => some (2, r)
    | '0' :: 'B' :: r => some (2, r)
    | _ => none
  match prefixed with
  | some (base, digits) =>
    if digits ≠ [] ∧ digitsOk (isBaseDigit base) true digits then
      .ok (signAndBody.1 * digitsVal base digits)
    else .error (.valueError "invalid literal for int with base 0")
  | none =>
    if body ≠ [] ∧ digitsOk (isBaseDigit 10) false body then
      let pure := body.filter (fun c => c ≠ '_')
      if pure.headD '0' = '0' ∧ pure.any (fun c => c ≠ '0') then
        .error (.valueError "invalid literal for int with base 0")
      else .ok (signAndBody.1 * digitsVal 10 body)
    else .error (.valueError "invalid literal for int with base 0")

/-- Python `int(s)` (base 10): surrounding whitespace stripped, optional sign,
decimal digits with underscores; leading zeros are allowed in base 10. -/
def pyInt10 (s : String) : Except PyErr Int :=
  let t := ((s.toList.dropWhile Char.isWhitespace).reverse.dropWhile Char.isWhitespace).reverse
  let signAndBody : Int × List Char :=
    match t with
    | '-' :: r => (-1, r)
    | '+' :: r => (1, r)
    | r => (1, r)
  let body := signAndBody.2
  if body ≠ [] ∧ digitsOk (isBaseDigit 10) false body then
    .ok (signAndBody.1 * digitsVal 10 body)
  else .error (.valueError "invalid literal for int with base 10")

/-! ## The literal encoder (`ExtensionResolver.resolve_literal`,
src/libs/extension_resolver.py:287-313) -/

/-- The character class `[-+xob_0-9]` of the literal regex `VALUE_PATTERN`. -/
def isNumChar (c : Char) : Bool :=
  c.isDigit || c == '-' || c == '+' || c == 'x' || c == 'o' || c == 'b' || c == '_'

/-- Try to match `\$\{ *number( *: *bitwidth)? *\}` starting exactly at a `'$'`.
The number is the maximal run of `[-+xob_0-9]` characters (the class is disjoint
from `' '`, `':'` and `'}'`, so the regex's greedy matching never needs to give
characters back). -/
def matchLitAt (cs : List Char) : Option (List Char × Option (List Char)) :=
  match cs with
  | '$' :: '{' :: rest =>
    let r1 := rest.dropWhile (fun c => c == ' ')
    let num := r1.takeWhile isNumChar
    if num = [] then none
    else
      let r3 := (r1.drop num.length).dropWhile (fun c => c == ' ')
      match r3 with
      | ':' :: r4 =>
        let r5 := r4.dropWhile (fun c => c == ' ')
        let bw := r5.takeWhile Char.isDigit
        if bw = [] then none
        else
          match ((r5.drop bw.length).dropWhile (fun c => c == ' ')) with
          | '}' :: _ => some (num, some bw)
          | _ => none
      | '}' :: _ => some (num, none)
      | _ => none
  | _ => none

/-- `re.search` of the literal pattern: try every `'$'` position from the left;
the reported `indent` group is the run of spaces immediately before the match. -/
def findLitAux : List Char → List Char → Option (List Char × List Char × Option (List Char))
  | _, [] => none
  | seen, c :: rest =>
    match matchLitAt (c :: rest) with
    | some (num, bw) => some ((seen.takeWhile (fun x => x == ' ')).reverse, num, bw)
    | none => findLitAux (c :: seen) rest

/-- The literal match on one line, as `re.search` reports it:
`(indent, number, bitwidth?)`. -/
def findLiteral (line : String) : Option (String × String × Option String) :=
  match findLitAux [] line.toList with
  | some (ind, num, bw) => some (⟨ind⟩, ⟨num⟩, bw.map (fun b => (⟨b⟩ : String)))
  | none => none

/-- The lines emitted for one matched literal (extension_resolver.py:296-311):
a non-negative value that fits is written out as its minimal binary digits, one
`one`/`zero` line per digit, most significant first; a non-negative value that
does not fit produces the `!!!!!!!error!!!!!!!` marker line; a negative value is
written out as the binary digits of `2**bitwidth - abs(value)` with no width
check (when that quantity is itself negative, Python formats it with a leading
`'-'`, which the digit loop turns into a spurious `zero`). -/
def literalLines (ind : String) (value : Int) (bitwidth : Nat) (line : String) : List String :=
  if 0 ≤ value then
    let binary := pyBin value.toNat
    if bitwidth < binary.length then
      [ind ++ "!!!!!!!error!!!!!!! " ++ line]
    else binary.map (fun d => ind ++ (if d = '1' then "one" else "zero"))
  else
    (pyBinInt (2 ^ bitwidth - (value.natAbs : Int))).map
      (fun d => ind ++ (if d = '1' then "one" else "zero"))

/-- The declared bitwidth of a literal: the parsed `bitwidth` group, or the
default 64 (extension_resolver.py:297-300). -/
def bwOf : Option String → Nat
  | some b => decVal b.toList
  | none => 64

/-- `ExtensionResolver.resolve_literal` (extension_resolver.py:287-313).  A line
with no literal is copied; a line with a literal is replaced by the emitted
instruction lines; `int(number, 0)` raising is an uncaught `ValueError`. -/
def resolveLiteralPass : List String → Except PyErr (List String)
  | [] => .ok []
  | line :: rest =>
    match findLiteral line with
    | none => do
      let out ← resolveLiteralPass rest
      .ok (line :: out)
    | some (ind, numStr, bwStr) => do
      let value ← pyInt0 numStr.toList
      let out ← resolveLiteralPass rest
      .ok (literalLines ind value (bwOf bwStr) line ++ out)

/-! ## The function-reference resolver (`ExtensionResolver.resolve_funcref`,
src/libs/extension_resolver.py:274-285) -/

/-- Try to match `@{name}` starting exactly at an `'@'`. -/
def matchFuncrefAt : List Char → Option (List Char)
  | '@' :: '{' :: rest =>
    let name := rest.takeWhile isWordChar
    if name = [] then none
    else
      match rest.drop name.length with
      | '}' :: _ => some name
      | _ => none
  | _ => none

/-- `re.search` of `(?P<indent> *)@{(?P<func_name>[a-zA-Z0-9_]+)}`. -/
def findFuncrefAux : List Char → List Char → Option (List Char × List Char)
  | _, [] => none
  | seen, c :: rest =>
    match matchFuncrefAt (c :: rest) with
    | some name => some ((seen.takeWhile (fun x => x == ' ')).reverse, name)
    | none => findFuncrefAux (c :: seen) rest

/-- `ExtensionResolver.resolve_funcref` (extension_resolver.py:274-285): a line
containing `@{name}` is replaced by the single line `${id}`; an unknown name is
an uncaught `KeyError` from `self.funcs[...]`. -/
def resolveFuncrefPass (funcs : List (String × Int)) : List String → Except PyErr (List String)
  | [] => .ok []
  | line :: rest =>
    match findFuncrefAux [] line.toList with
    | none => do
      let out ← resolveFuncrefPass funcs rest
      .ok (line :: out)
    | some (ind, name) =>
      match dictGet funcs (String.mk name) with
      | none => .error (.keyError (String.mk name))
      | some fid => do
        let out ← resolveFuncrefPass funcs rest
        .ok ((String.mk ind ++ "$\x7b" ++ toString fid ++ "\x7d") :: out)

/-! ## `ExtensionResolver.resolve_callfunc` (extension_resolver.py:247-272) -/

/-- `ExtensionResolver.resolve_callfunc`: the `\call <name>` expansion.  Note the
source emits `${8}` immediately followed by `pop8s0` (extension_resolver.py:260-261)
with no `pushl8` in between — unlike the parallel code in
`resolve_dependant_pseudo_ops` (extension_resolver.py:216-218), which emits
`${8}`, `pushl8`, `pop8s0`. -/
def resolveCallfuncLines (funcs : List (String × Int)) (ind : String) (pseudoArg : String) :
    Except PyErr (List String) :=
  let funcName : String := ⟨pseudoArg.toList.filter (fun c => c ≠ ' ')⟩
  match dictGet funcs funcName with
  | none => .error (.keyError funcName)
  | some funcId =>
    let numShift := (pyBinInt funcId).length / 8
    .ok ([ind ++ "@\x7b" ++ funcName ++ "\x7d", ind ++ "pushl8", ind ++ "pop8s0"]
      ++ (if numShift ≠ 0 then
            [ind ++ "push8s1", ind ++ "xchg13", ind ++ "xchg03",
             ind ++ "$\x7b8\x7d", ind ++ "pop8s0", ind ++ "xchg03", ind ++ "xchg13"]
            ++ (List.replicate numShift
                 [ind ++ "lshift", ind ++ "xchg23", ind ++ "xchg03",
                  ind ++ "pushl8", ind ++ "pop8s0"]).flatten
            ++ [ind ++ "pop8s1"]
          else [])
      ++ [ind ++ "call"])

/-! ## The abstract machine of §4.7, as implemented by the C++ backend
(`CPlusPlusGenerator.line`, src/langs/lan22_cxx.py:107-202) -/

/-- Machine state: four unsigned 64-bit registers, three byte stacks (head = top)
and the compile-time bit stack. -/
structure Machine where
  r0 : Nat
  r1 : Nat
  r2 : Nat
  r3 : Nat
  s0 : List Nat
  s1 : List Nat
  s2 : List Nat
  cts : Stack
  deriving DecidableEq, Repr

/-- `std::int8_t(v)` of the low byte: two's-complement reading. -/
def signedByte (v : Nat) : Int :=
  if v < 128 then (v : Int) else (v : Int) - 256

/-- One straight-line instruction, with the bit-exact effects the C++ backend
compiles to (lan22_cxx.py:107-202).  A pop from an empty byte stack is `none`
(`std::stack::top` on an empty stack in the emitted C++).  Control-flow and I/O
instructions (`call`, `print`, `read`, `exit`, `startfunc`, `endfunc`,
`deflabel`, `ifz`) are outside this straight-line fragment and also map to
`none`, as does any unknown instruction (the backend's `ParseError`). -/
def stepInstr (m : Machine) (instruction : String) : Option Machine :=
  if instruction = "nand" then
    some { m with r2 := (2 ^ 64 - 1) ^^^ (m.r0 &&& m.r1) }
  else if instruction = "lshift" then
    let a := signedByte (m.r1 % 256)
    if 0 ≤ a then
      if 64 ≤ a then some { m with r2 := 0 }
      else some { m with r2 := (m.r0 <<< a.toNat) % 2 ^ 64 }
    else
      if 64 ≤ (-a) then some { m with r2 := 0 }
      else some { m with r2 := m.r0 >>> (-a).toNat }
  else if instruction = "push8s0" then some { m with s0 := (m.r0 &&& 0xff) :: m.s0 }
  else if instruction = "pop8s0" then
    match m.s0 with
    | [] => none
    | t :: rest => some { m with r0 := (m.r0 ^^^ (m.r0 &&& 0xff)) ||| t, s0 := rest }
  else if instruction = "push8s1" then some { m with s1 := (m.r1 &&& 0xff) :: m.s1 }
  else if instruction = "pop8s1" then
    match m.s1 with
    | [] => none
    | t :: rest => some { m with r1 := (m.r1 ^^^ (m.r1 &&& 0xff)) ||| t, s1 := rest }
  else if instruction = "push8s2" then some { m with s2 := (m.r2 &&& 0xff) :: m.s2 }
  else if instruction = "pop8s2" then
    match m.s2 with
    | [] => none
    | t :: rest => some { m with r2 := (m.r2 ^^^ (m.r2 &&& 0xff)) ||| t, s2 := rest }
  else if instruction = "zero" then some { m with cts := m.cts.push1 0 }
  else if instruction = "one" then some { m with cts := m.cts.push1 1 }
  else if instruction = "pushl8" then
    let (b, c2) := m.cts.pop8
    some { m with s0 := b :: m.s0, cts := c2 }
  else if instruction = "xchg03" then some { m with r0 := m.r3, r3 := m.r0 }
  else if instruction = "xchg13" then some { m with r1 := m.r3, r3 := m.r1 }
  else if instruction = "xchg23" then some { m with r2 := m.r3, r3 := m.r2 }
  else none

/-- Execute a straight-line instruction list. -/
def runStraight (lines : List String) (m : Machine) : Option Machine :=
  lines.foldlM stepInstr m

/-- The `\call` expansion after the funcref and literal passes have run over it,
i.e. what actually reaches the backend. -/
def callLowered (funcs : List (String × Int)) (name : String) : Except PyErr (List String) := do
  let ls ← resolveCallfuncLines funcs "" name
  let ls2 ← resolveFuncrefPass funcs ls
  resolveLiteralPass ls2

/-- Run the lowered `\call` sequence up to (but excluding) the final `call`
instruction, from machine state `m`. -/
def runCallBeforeCall (funcs : List (String × Int)) (name : String) (m : Machine) :
    Option Machine :=
  match callLowered funcs name with
  | .ok ls => runStraight ls.dropLast m
  | .error _ => none

/-! ## Macro retrieval and expansion (src/libs/macro_resolver.py) -/

/-- One element of `Macro.argnames`.  `retrieve_macros` stores Python *ints*
(`list(range(N))`) for an integer argdecl and *strings* for a named argdecl;
the distinction is observable because Python `0 == "0"` is `False`. -/
inductive ArgName where
  | num (n : Nat)
  | str (s : String)
  deriving DecidableEq, Repr

/-- `Macro` (macro_resolver.py:11-14): parameter list and body lines. -/
structure MacroDef where
  argnames : List ArgName
  code : List String
  deriving DecidableEq, Repr

/-- Python `==` between an `argnames` element and a placeholder string:
an int never equals a str. -/
def argNameEq (a : ArgName) (ph : String) : Bool :=
  match a with
  | .num _ => false
  | .str s => s == ph

/-- Python `argnames.index(placeholder)`: first index whose element equals the
placeholder string; `ValueError` when there is none. -/
def pyIndexArg (l : List ArgName) (ph : String) : Except PyErr Nat :=
  match l.findIdx? (fun a => argNameEq a ph) with
  | some i => .ok i
  | none => .error (.valueError (ph ++ " is not in list"))

/-- The optional argument group `( +(?P<args>…))?` of the invocation and
defmacro regexes.  `stopSemicolon` selects the `[^;]+` variant (invocations)
versus the `.+` variant (defmacro).  With backtracking, a tail of two or more
spaces followed by nothing (or by `;` in the `[^;]+` variant) yields the
argument string `" "`. -/
def argsGroup (stopSemicolon : Bool) (rest3 : List Char) : Option String :=
  match rest3 with
  | [] => none
  | c :: _ =>
    if c ≠ ' ' then none
    else
      let k := (rest3.takeWhile (fun x => x == ' ')).length
      let after := rest3.drop k
      match after with
      | [] => if 2 ≤ k then some " " else none
      | a :: _ =>
        if stopSemicolon ∧ a = ';' then (if 2 ≤ k then some " " else none)
        else some ⟨if stopSemicolon then after.takeWhile (fun x => x ≠ ';') else after⟩

/-- The invocation regex `^(?P<indent> *)#(?P<name>[a-zA-Z0-9_]+)( +(?P<args>[^;]+))?`
(macro_resolver.py:91): returns `(indent, name, args?)`. -/
def parseInvocation (line : String) : Option (String × String × Option String) :=
  let cs := line.toList
  let ind := cs.takeWhile (fun c => c == ' ')
  match cs.drop ind.length with
  | '#' :: r2 =>
    let name := r2.takeWhile isWordChar
    if name = [] then none
    else some (⟨ind⟩, ⟨name⟩, argsGroup true (r2.drop name.length))
  | _ => none

/-- One pass of `re.sub(r"(?<!\\)\\X", repl, …)`: replace every backslash-`c`
pair that is not preceded by a backslash in the original string (matches are
non-overlapping, left to right). -/
def subUnesc (c : Char) (repl : List Char) : Option Char → List Char → List Char
  | _, [] => []
  | _, [x] => [x]
  | prev, x :: y :: rest =>
    if x = '\\' ∧ y = c ∧ prev ≠ some '\\' then repl ++ subUnesc c repl (some y) rest
    else x :: subUnesc c repl (some x) (y :: rest)

/-- `unescape` (macro_resolver.py:53-59): the five sequential `re.sub` passes. -/
def pyUnescape (s : List Char) : List Char :=
  subUnesc '\\' ['\\']
    none (subUnesc '0' [Char.ofNat 0]
      none (subUnesc 't' [Char.ofNat 9]
        none (subUnesc 'r' [Char.ofNat 13]
          none (subUnesc 'n' [Char.ofNat 10] none s))))

/-- UTF-8 bytes of one code point (`str.encode("utf-8")`). -/
def utf8Bytes (c : Char) : List Nat :=
  let v := c.toNat
  if v < 0x80 then [v]
  else if v < 0x800 then [0xC0 ||| (v >>> 6), 0x80 ||| (v &&& 63)]
  else if v < 0x10000 then
    [0xE0 ||| (v >>> 12), 0x80 ||| ((v >>> 6) &&& 63), 0x80 ||| (v &&& 63)]
  else
    [0xF0 ||| (v >>> 18), 0x80 ||| ((v >>> 12) &&& 63),
     0x80 ||| ((v >>> 6) &&& 63), 0x80 ||| (v &&& 63)]

/-- `s.encode("utf-8")`. -/
def utf8Encode (s : String) : List Nat :=
  (s.toList.map utf8Bytes).flatten

/-- ASCII `str.lower()` (the byteorder arguments are ASCII). -/
def lowerStr (s : String) : String :=
  ⟨s.toList.map (fun c => if 'A' ≤ c ∧ c ≤ 'Z' then Char.ofNat (c.toNat + 32) else c)⟩

/-- `re.search(r"(?P<value>\d+):(?P<repeat>\d+)", …)` (macro_resolver.py:124):
first maximal digit run immediately followed by `:` and at least one digit;
returns `(value digits, repeat digits)`.  Fuel keeps the definition structural;
callers pass the string length. -/
def findValRep : Nat → List Char → Option (List Char × List Char)
  | 0, _ => none
  | _, [] => none
  | fuel + 1, c :: rest =>
    if c.isDigit then
      let ds := (c :: rest).takeWhile Char.isDigit
      match (c :: rest).drop ds.length with
      | ':' :: r2 =>
        let rs := r2.takeWhile Char.isDigit
        if rs = [] then findValRep fuel (':' :: r2) else some (ds, rs)
      | after => findValRep fuel after
    else findValRep fuel rest

/-- Python `value.to_bytes(k, byteorder)` for an `int` value: negative values and
values not fitting in `k` bytes raise `OverflowError`. -/
def pyToBytesOrd (k : Nat) (v : Int) (little : Bool) : Except PyErr (List Nat) :=
  if v < 0 then .error .overflowError
  else if v.toNat < 256 ^ k then
    .ok (if little then (toBytesBE k v.toNat).reverse else toBytesBE k v.toNat)
  else .error .overflowError

/-- The `intarray` value loop (macro_resolver.py:122-131): each raw argument is
either `value:repeat` or a plain `int(value, 0)` literal, emitted as
`value.to_bytes(alignment // 8, byteorder) * repeat`. -/
def intarrayValues (alignBytes : Nat) (little : Bool) (raws : List String) :
    Except PyErr (List Nat) :=
  raws.foldlM
    (fun acc rawv => do
      let (v, rep) ←
        match findValRep rawv.length rawv.toList with
        | some (ds, rs) => do
          let v ← pyInt0 ds
          let rep ← pyInt0 rs
          Except.ok (v, rep)
        | none => do
          let v ← pyInt0 rawv.toList
          Except.ok (v, (1 : Int))
      let bts ← pyToBytesOrd alignBytes v little
      .ok (acc ++ (List.replicate rep.toNat bts).flatten))
    []

/-- The reserved `stack` macro branch (macro_resolver.py:102-137).  Error lines
(`!!!!!!!error!!!!!!! …`) are emitted without the invocation indent (the `Code`
indent is `""` at that point); the initializer line carries the indent.  The
`continue` of the unknown-byteorder case skips the initializer line; the unknown
value-type case falls through and emits an (empty) initializer line as well. -/
def stackBranch (ind line : String) (args : List String) : Except PyErr (List String) := do
  let a0 ← pyGet args 0
  let sidInt ← pyInt10 a0
  let vt ← pyGet args 1
  if vt = "raw" then do
    let vals ← (args.drop 2).mapM (fun v => pyInt0 v.toList)
    let bytes ← vals.mapM
      (fun v => if 0 ≤ v ∧ v < 256 then Except.ok v.toNat
                else Except.error (.valueError "bytes must be in range(0, 256)"))
    let tl ← taggedInitLine sidInt bytes
    .ok [ind ++ (⟨tl⟩ : String)]
  else if vt = "cstr" then do
    let bytes := utf8Encode ⟨pyUnescape (String.intercalate "," (args.drop 2)).toList⟩ ++ [0]
    let tl ← taggedInitLine sidInt bytes
    .ok [ind ++ (⟨tl⟩ : String)]
  else if vt = "intarray" then do
    let a2 ← pyGet args 2
    let alignment ← pyInt10 a2
    let a3 ← pyGet args 3
    let bo := lowerStr a3
    if bo = "little" ∨ bo = "big" then do
      if alignment < 0 then .error (.valueError "negative alignment")
      else do
        let values ← intarrayValues (alignment.toNat / 8) (bo = "little") (args.drop 4)
        let tl ← taggedInitLine sidInt values
        .ok [ind ++ (⟨tl⟩ : String)]
    else
      .ok ["!!!!!!!error!!!!!!! " ++ line]
  else do
    let tl ← taggedInitLine sidInt []
    .ok ["!!!!!!!error!!!!!!! " ++ line, ind ++ (⟨tl⟩ : String)]

/-- The placeholder scan `re.findall(r"#{(?P<name>[^}]+)}", macro_line)`
(macro_resolver.py:140): all non-overlapping occurrences, in order, duplicates
included. -/
def findPhAux : Nat → List Char → List (List Char)
  | 0, _ => []
  | fuel + 1, cs =>
    match cs with
    | '#' :: '{' :: rest =>
      let nm := rest.takeWhile (fun x => x ≠ '}')
      (match rest.drop nm.length with
       | '}' :: r2 => if nm ≠ [] then nm :: findPhAux fuel r2 else findPhAux fuel ('{' :: rest)
       | _ => findPhAux fuel ('{' :: rest))
    | _ :: rest => findPhAux fuel rest
    | [] => []

/-- Wrapper supplying enough fuel (the scan advances by at least one character
per step). -/
def findPlaceholders (cs : List Char) : List (List Char) :=
  findPhAux cs.length cs

/-- The substitution loop over one macro body line (macro_resolver.py:140-149):
for each placeholder found, look its name up in `argnames` (`ValueError` when
absent — in particular for the positional case, where `argnames` holds ints and
the placeholder is a string), take the matching invocation argument(s)
(`IndexError` when the invocation is短 too short), and `re.sub` every occurrence
of the placeholder with the comma-joined arguments. -/
def substPlaceholders (mac : MacroDef) (args : List String) (macroLine : String) :
    Except PyErr String :=
  (findPlaceholders macroLine.toList).foldlM
    (fun ln ph => do
      let phs : String := ⟨ph⟩
      let actual ←
        if phs = "__VA_ARGS__" then do
          let i ← pyIndexArg mac.argnames "..."
          Except.ok (args.drop i)
        else do
          let i ← pyIndexArg mac.argnames phs
          let a ← pyGet args i
          Except.ok [a]
      .ok (ln.replace ("#\x7b" ++ phs ++ "\x7d") (String.intercalate "," actual)))
    macroLine

/-- One sweep of `_expand_macro_recursive` over the line list
(macro_resolver.py:87-156): returns the rewritten lines and the `macro_found`
flag.  An invocation of an unknown macro (other than `stack`) raises `KeyError`
at `self.macros[name]`. -/
def processOnce (macros : List (String × MacroDef)) (dbg : Bool) :
    List String → Except PyErr (List String × Bool)
  | [] => .ok ([], false)
  | line :: rest =>
    match parseInvocation line with
    | none => do
      let (out, f) ← processOnce macros dbg rest
      .ok (line :: out, f)
    | some (ind, name, argsO) => do
      let args := match argsO with
        | none => []
        | some s => splitCommaStrip s
      let dbgPre := if dbg then [ind ++ ";debug: " ++ line] else []
      let emitted ←
        if name = "stack" then stackBranch ind line args
        else
          match dictGet macros name with
          | none => Except.error (.keyError name)
          | some mac => mac.code.mapM (substPlaceholders mac args)
      let dbgPost := if dbg then [ind ++ ";debug: end macro"] else []
      let (out, _) ← processOnce macros dbg rest
      .ok (dbgPre ++ emitted ++ dbgPost ++ out, true)

/-- `MacroResolver._expand_macro_recursive` (macro_resolver.py:87-160), with
explicit fuel standing for the Python recursion: the Python function recurses
whenever the sweep found a macro, so an input that never reaches a fixpoint
never returns (`outOfFuel` for every fuel). -/
def expandRec (macros : List (String × MacroDef)) (dbg : Bool) :
    Nat → List String → Except PyErr (List String)
  | 0, _ => .error .outOfFuel
  | fuel + 1, code => do
    let (p, found) ← processOnce macros dbg code
    if found then expandRec macros dbg fuel p else .ok p

/-- `MacroResolver.expand_macro` terminates (normally or with a genuine Python
exception) on the given input: some fuel suffices. -/
def ExpandTerminates (macros : List (String × MacroDef)) (dbg : Bool)
    (code : List String) : Prop :=
  ∃ fuel, expandRec macros dbg fuel code ≠ .error .outOfFuel

/-- The defmacro header regex
`^ *#defmacro (?P<name>[a-zA-Z0-9_]+)( +(?P<argdecl>.+))?` (macro_resolver.py:34). -/
def parseDefmacroLine (line : String) : Option (String × Option String) :=
  let cs := line.toList
  let rest := cs.drop (cs.takeWhile (fun c => c == ' ')).length
  if rest.take 10 = "#defmacro ".toList then
    let r2 := rest.drop 10
    let name := r2.takeWhile isWordChar
    if name = [] then none
    else some (⟨name⟩, argsGroup false (r2.drop name.length))
  else none

/-- The endmacro regex `^ *#endmacro` (macro_resolver.py:44). -/
def parseEndmacroLine (line : String) : Bool :=
  let cs := line.toList
  (cs.drop (cs.takeWhile (fun c => c == ' ')).length).take 9 = "#endmacro".toList

/-- The fold of `retrieve_macros` (macro_resolver.py:29-50): state is the macro
currently being collected, the macro table and the passed-through lines. -/
def retrieveGo : Option String → List (String × MacroDef) → List String → List String →
    List (String × MacroDef) × List String
  | _, macros, out, [] => (macros, out)
  | cur, macros, out, line :: rest =>
    match parseDefmacroLine line with
    | some (name, argdeclO) =>
      let argnames : List ArgName :=
        match argdeclO with
        | none => []
        | some ad =>
          match pyInt10 ad with
          | .ok n => (List.range n.toNat).map ArgName.num
          | .error _ => (splitCommaStrip ad).map ArgName.str
      retrieveGo (some name) (dictSet macros name ⟨argnames, []⟩) out rest
    | none =>
      if parseEndmacroLine line then retrieveGo none macros out rest
      else
        match cur with
        | some n =>
          let mac := (dictGet macros n).getD ⟨[], []⟩
          retrieveGo cur (dictSet macros n ⟨mac.argnames, mac.code ++ [line]⟩) out rest
        | none => retrieveGo cur macros (out ++ [line]) rest

/-- `retrieve_macros` (macro_resolver.py:29-50): an integer argdecl `N` yields
the Python-int parameter list `list(range(N))`, a non-integer argdecl yields the
comma-split stripped name list. -/
def retrieveMacros (code : List String) : List (String × MacroDef) × List String :=
  retrieveGo none [] [] code

/-! ## Pseudo-op lowering, pass 1 and pass 2
(`ExtensionResolver.resolve_pseudo_ops` / `eval` / `resolve_dependant_pseudo_ops`,
src/libs/extension_resolver.py:124-245)

The deferred-op argument expressions are modelled as a small AST rather than raw
sympy strings: `lref n` is a source reference `l{n}`, and `msym i n` is the
mangled symbol produced by `_mangle_label`, i.e. the string
`"__F" ++ toString i ++ "L_" ++ n`.  Because the decimal digits of `i` contain
no `'L'`, distinct `(i, n)` pairs always produce distinct mangled strings, so
the pair is a faithful model of string identity.  `eval` parses the expression
with `sympy` and substitutes every mangled symbol with its label id; the AST
models the fragment of sympy that the deferred expressions use (integer
literals, symbols, `+`, `*`), and a remaining free symbol makes `int(...)`
raise `TypeError`. -/

/-- Deferred-expression AST. -/
inductive LExpr where
  | num (n : Int)
  | lref (name : String)
  | msym (idx : Nat) (name : String)
  | sym (name : String)
  | add (a b : LExpr)
  | mul (a b : LExpr)
  deriving DecidableEq, Repr

/-- Rendering of an expression back to source text (used to reconstruct the
line for echoes and error messages; spacing of the original line is not
retained, which no modelled behaviour depends on). -/
def LExpr.render : LExpr → String
  | .num n => toString n
  | .lref n => "l\x7b" ++ n ++ "\x7d"
  | .msym i n => "__F" ++ toString i ++ "L_" ++ n
  | .sym s => s
  | .add a b => a.render ++ "+" ++ b.render
  | .mul a b => a.render ++ "*" ++ b.render

/-- The substitution of every `l{name}` reference by `_mangle_label(func_index,
name)` performed by `resolve_pseudo_ops` (extension_resolver.py:166-176). -/
def mangleExpr (i : Nat) : LExpr → LExpr
  | .lref n => .msym i n
  | .add a b => .add (mangleExpr i a) (mangleExpr i b)
  | .mul a b => .mul (mangleExpr i a) (mangleExpr i b)
  | e => e

/-- One `\`-directive as matched by the pseudo-op regex
`^(?P<indent> *)\\(?P<pseudo_op>[a-zA-Z0-9_]+) +(?P<pseudo_arg>[^;]+)`. -/
inductive PPseudo where
  | func (arg : String)
  | call (arg : String)
  | pushl8 (arg : String)
  | pushl64 (arg : String)
  | autolabel (arg : String)
  | autopushltor0 (e : LExpr)
  | autoliteral (e : LExpr)
  | unknownOp (opName : String) (arg : String)
  deriving DecidableEq, Repr

/-- A line of the pass-1 input: either plain text, or a matched `\`-directive
together with its indent group. -/
inductive PLine where
  | raw (s : String)
  | pseudo (ind : String) (p : PPseudo)
  deriving DecidableEq, Repr

/-- A line of the pass-1 output: plain text, or one of the `%`-prefixed markers
that pass 2 consumes (`deferredOther` mirrors pass 2's unknown-op branch). -/
inductive OLine where
  | raw (s : String)
  | deferredPush (ind : String) (e : LExpr)
  | deferredLit (ind : String) (e : LExpr)
  | deferredOther (ind : String) (opName : String) (arg : String)
  deriving DecidableEq, Repr

/-- The `operation_match` regex `(?P<indent> *)(?P<op>[a-z0-9_]+)` searched over
a line: the op group is the first maximal run of `[a-z0-9_]` characters. -/
def opOfString (s : String) : Option String :=
  match s.toList.dropWhile (fun c => !(isLowerWordChar c)) with
  | [] => none
  | rest => some ⟨rest.takeWhile isLowerWordChar⟩

/-- The name under which a structured pseudo-op was matched. -/
def pseudoName : PPseudo → String
  | .func _ => "func"
  | .call _ => "call"
  | .pushl8 _ => "pushl8"
  | .pushl64 _ => "pushl64"
  | .autolabel _ => "autolabel"
  | .autopushltor0 _ => "autopushltor0"
  | .autoliteral _ => "autoliteral"
  | .unknownOp n _ => n

/-- The argument text of a structured pseudo-op. -/
def pseudoArgStr : PPseudo → String
  | .func a => a
  | .call a => a
  | .pushl8 a => a
  | .pushl64 a => a
  | .autolabel a => a
  | .autopushltor0 e => e.render
  | .autoliteral e => e.render
  | .unknownOp _ a => a

/-- The source text of a structured pseudo-op line (single separating space;
original spacing is not retained). -/
def reconstructPLine (ind : String) (p : PPseudo) : String :=
  ind ++ "\\" ++ pseudoName p ++ " " ++ pseudoArgStr p

/-- The `operation_match` op of a `PLine` (applied to the line text, exactly as
the source applies the regex to every line, pseudo lines included). -/
def opOfPLine : PLine → Option String
  | .raw s => opOfString s
  | .pseudo ind p => opOfString (reconstructPLine ind p)

/-- Pass-1 state: current function index, per-function auto-label counter, and
the label table `labels : dict[int, dict[str, int]]`. -/
structure Pass1State where
  funcIdx : Nat
  autoId : Nat
  labels : List (Nat × List (String × Nat))
  deriving DecidableEq, Repr

/-- The `startfunc`/`endfunc` effect of `operation_match`
(extension_resolver.py:132-137). -/
def applyOpEffect (st : Pass1State) (op : Option String) : Pass1State :=
  if op = some "startfunc" then { st with labels := dictSet st.labels st.funcIdx [] }
  else if op = some "endfunc" then { st with funcIdx := st.funcIdx + 1, autoId := 0 }
  else st

/-- The label-name regex `(?P<name>[a-zA-Z0-9_]+)` searched inside the
`\autolabel` argument (extension_resolver.py:156). -/
def extractLabelName (arg : String) : Option String :=
  match arg.toList.dropWhile (fun c => !(isWordChar c)) with
  | [] => none
  | rest => some ⟨rest.takeWhile isWordChar⟩

/-- A single quote character (Python wraps the echoed line in quotes in the
unknown-pseudo-op error message). -/
def sq : String := String.singleton (Char.ofNat 39)

/-- Processing of one line by `resolve_pseudo_ops` (extension_resolver.py:129-182).
Error lines of the `autolabel` branch are produced by a `continue`, which skips
the debug-end line (the leaked `Code` indent of that `continue` is not modelled;
no claim depends on it). -/
def pass1Line (funcs : List (String × Int)) (dbg : Bool) (st : Pass1State) :
    PLine → Except PyErr (List OLine × Pass1State)
  | .raw s => .ok ([.raw s], applyOpEffect st (opOfString s))
  | .pseudo ind p => do
    let line := reconstructPLine ind p
    let st2 := applyOpEffect st (opOfString line)
    let dbgPre : List OLine := if dbg then [.raw (ind ++ ";debug: " ++ stripSpaces line)] else []
    let dbgPost : List OLine := if dbg then [.raw (ind ++ ";debug: end pseudo operation")] else []
    match p with
    | .func _ => .ok (dbgPre ++ [.raw (ind ++ line)] ++ dbgPost, st2)
    | .call arg => do
      let ls ← resolveCallfuncLines funcs ind arg
      .ok (dbgPre ++ ls.map OLine.raw ++ dbgPost, st2)
    | .pushl8 arg =>
      .ok (dbgPre ++ [.raw (ind ++ "$\x7b" ++ arg ++ ":8\x7d"), .raw (ind ++ "pushl8")]
           ++ dbgPost, st2)
    | .pushl64 arg =>
      .ok (dbgPre ++ [.raw (ind ++ "$\x7b" ++ arg ++ ":64\x7d")]
           ++ List.replicate 8 (OLine.raw (ind ++ "pushl8")) ++ dbgPost, st2)
    | .autolabel arg =>
      (match extractLabelName arg with
       | none => .ok (dbgPre ++ [.raw (ind ++ "!!!!!!!error!!!!!!! " ++ line)], st2)
       | some n =>
         match dictGet st2.labels st2.funcIdx with
         | none => .error (.keyError (toString st2.funcIdx))
         | some m =>
           .ok (dbgPre ++ [.raw (ind ++ "$\x7b" ++ toString st2.autoId ++ "\x7d"),
                           .raw (ind ++ "deflabel")] ++ dbgPost,
                { st2 with labels := dictSet st2.labels st2.funcIdx (dictSet m n st2.autoId),
                           autoId := st2.autoId + 1 }))
    | .autopushltor0 e =>
      .ok (dbgPre ++ [.deferredPush ind (mangleExpr st2.funcIdx e)] ++ dbgPost, st2)
    | .autoliteral e =>
      .ok (dbgPre ++ [.deferredLit ind (mangleExpr st2.funcIdx e)] ++ dbgPost, st2)
    | .unknownOp _ _ =>
      .ok (dbgPre ++ [.raw (ind ++ "!!!!!!!error!!!!!!! " ++ sq ++ line ++ sq)] ++ dbgPost, st2)

/-- `resolve_pseudo_ops` folded over a line list from an arbitrary state. -/
def pass1Go (funcs : List (String × Int)) (dbg : Bool) :
    Pass1State → List PLine → Except PyErr (List OLine × Pass1State)
  | st, [] => .ok ([], st)
  | st, l :: rest => do
    let (o1, st1) ← pass1Line funcs dbg st l
    let (o2, st2) ← pass1Go funcs dbg st1 rest
    .ok (o1 ++ o2, st2)

/-- `ExtensionResolver.resolve_pseudo_ops` (extension_resolver.py:124-183):
`current_func_index = 0`, `current_autolabel_id = 0`, `self.labels` empty. -/
def pass1 (funcs : List (String × Int)) (dbg : Bool) (lines : List PLine) :
    Except PyErr (List OLine × Pass1State) :=
  pass1Go funcs dbg ⟨0, 0, []⟩ lines

/-- `ExtensionResolver.eval` (extension_resolver.py:185-194): sympy substitutes
every mangled label symbol with its id from `self.labels`; a symbol with no
substitution survives to `int(...)`, which raises `TypeError`; an `l{...}`
reference that was never mangled would not even parse. -/
def evalE (labels : List (Nat × List (String × Nat))) : LExpr → Except PyErr Int
  | .num n => .ok n
  | .add a b => do
    let x ← evalE labels a
    let y ← evalE labels b
    .ok (x + y)
  | .mul a b => do
    let x ← evalE labels a
    let y ← evalE labels b
    .ok (x * y)
  | .msym i n =>
    (match dictGet labels i with
     | some m =>
       match dictGet m n with
       | some v => .ok (v : Int)
       | none => .error (.typeError "Symbol cannot be interpreted as int")
     | none => .error (.typeError "Symbol cannot be interpreted as int"))
  | .sym _ => .error (.typeError "Symbol cannot be interpreted as int")
  | .lref _ => .error (.valueError "sympy parse error")

/-- The `%autopushltor0` emission (extension_resolver.py:209-237): minimal
big-endian bytes of the evaluated value; a register-juggling preamble and
postamble around `lshift` when there are at least two bytes.  A negative
evaluated value would make `value.to_bytes` raise `OverflowError`. -/
def autopushLines (ind : String) (value : Int) : Except PyErr (List String) :=
  if value < 0 then .error .overflowError
  else
    let size := ((pyBin value.toNat).length + 7) / 8
    let bytes := toBytesBE size value.toNat
    let yieldByte : Nat → List String := fun b =>
      [ind ++ "$\x7b" ++ toString b ++ "\x7d", ind ++ "pushl8", ind ++ "pop8s0"]
    .ok ((if 2 ≤ size then
            [ind ++ "xchg13", ind ++ "$\x7b8\x7d", ind ++ "pushl8", ind ++ "pop8s0",
             ind ++ "xchg03", ind ++ "xchg13", ind ++ "xchg03"]
          else [])
      ++ (match bytes with
          | [] => []
          | b0 :: rest =>
            yieldByte b0
            ++ (rest.map (fun b =>
                  [ind ++ "lshift", ind ++ "xchg23", ind ++ "xchg03", ind ++ "xchg23"]
                  ++ yieldByte b)).flatten)
      ++ (if 2 ≤ size then [ind ++ "xchg13"] else []))

/-- `ExtensionResolver.resolve_dependant_pseudo_ops` (extension_resolver.py:196-245).
(The `current_func_index` counter of pass 2 is incremented but never read, and is
omitted.) -/
def pass2 (labels : List (Nat × List (String × Nat))) :
    List OLine → Except PyErr (List String)
  | [] => .ok []
  | l :: rest => do
    let out ←
      match l with
      | .raw s => Except.ok [s]
      | .deferredPush ind e => do
        let v ← evalE labels e
        autopushLines ind v
      | .deferredLit ind e => do
        let v ← evalE labels e
        Except.ok [ind ++ "$\x7b" ++ toString v ++ "\x7d"]
      | .deferredOther ind opName arg =>
        Except.ok [ind ++ "!!!!!!!error!!!!!!! " ++ sq ++ ind ++ "%" ++ opName ++ " " ++ arg ++ sq]
    let rest2 ← pass2 labels rest
    .ok (out ++ rest2)

/-- The per-function auto-label map built by a body's `\autolabel` lines:
`labels[name] = id` with a monotonically increasing counter. -/
def autoLabelsGo : List (String × Nat) → Nat → List PLine → List (String × Nat) × Nat
  | m, aid, [] => (m, aid)
  | m, aid, .pseudo _ (.autolabel arg) :: rest =>
    (match extractLabelName arg with
     | some n => autoLabelsGo (dictSet m n aid) (aid + 1) rest
     | none => autoLabelsGo m aid rest)
  | m, aid, _ :: rest => autoLabelsGo m aid rest

/-- Lines that do not move the `operation_match` function counter. -/
def noDelim (l : PLine) : Prop :=
  opOfPLine l ≠ some "startfunc" ∧ opOfPLine l ≠ some "endfunc"

/-- A two-function program: `startfunc`, body, `endfunc`, twice. -/
def twoFuncProgram (b0 b1 : List PLine) : List PLine :=
  PLine.raw "startfunc" :: b0 ++ PLine.raw "endfunc" :: PLine.raw "startfunc" :: b1
    ++ [PLine.raw "endfunc"]

/-- Expressions built only from integer literals, label references and the
arithmetic operators (the shapes the deferred directives actually use). -/
def cleanExpr : LExpr → Prop
  | .num _ => True
  | .lref _ => True
  | .add a b => cleanExpr a ∧ cleanExpr b
  | .mul a b => cleanExpr a ∧ cleanExpr b
  | _ => False

/-- All label names referenced by an expression. -/
def refsOf : LExpr → List String
  | .lref n => [n]
  | .add a b => refsOf a ++ refsOf b
  | .mul a b => refsOf a ++ refsOf b
  | _ => []

/-- The value of a clean expression when every reference is looked up in one
given per-function label map. -/
def valPure (m : List (String × Nat)) : LExpr → Int
  | .num n => n
  | .lref n => (((dictGet m n).getD 0 : Nat) : Int)
  | .add a b => valPure m a + valPure m b
  | .mul a b => valPure m a * valPure m b
  | _ => 0

/-! ## The C++ backend (`CPlusPlusGenerator`, src/langs/lan22_cxx.py) -/

/-- The `GOTO` placeholder (lan22_cxx.py:20). -/
def GOTO : String := "__GOTO__"

/-- `Label.name` (lan22_cxx.py:11-17): `f"l{lid:b}"`. -/
def labelName (lid : Nat) : String := "l" ++ (⟨pyBin lid⟩ : String)

/-- `Function` (lan22_cxx.py:23-42): name, return type, id, emitted steps,
labels (by id — the rendered name is derived), and the debug level. -/
structure CxxFunc where
  name : String
  rettype : String
  fid : Option Nat
  steps : List String
  labelIds : List Nat
  debugLevel : Nat
  deriving DecidableEq, Repr

/-- Generator state: the function list and the compile-time stack. -/
structure GenState where
  functions : List CxxFunc
  cts : Stack
  deriving DecidableEq, Repr

/-- Python `lst[-1]` mutation: apply `f` to the last element, `IndexError` when
the list is empty. -/
def modifyLast {α : Type} (l : List α) (f : α → α) : Except PyErr (List α) :=
  match l.reverse with
  | [] => .error .indexError
  | x :: rest => .ok ((f x :: rest).reverse)

/-- `self.functions[-1].add_step(...)` for a batch of steps. -/
def addSteps (st : GenState) (new : List String) : Except PyErr GenState := do
  let fs ← modifyLast st.functions (fun fn => { fn with steps := fn.steps ++ new })
  .ok { st with functions := fs }

/-- `CPlusPlusGenerator._debug_comment_instruction` (lan22_cxx.py:93-105). -/
def debugSteps (dl : Nat) (instruction : String) : List String :=
  (if 2 ≤ dl then ["//" ++ instruction] else [])
  ++ (if 4 ≤ dl then
        ["std::cerr<<std::hex<<\"    r0: 0x\"<<r0<<\",r1: 0x\"<<r1<<\",r2: 0x\"<<r2<<\",r3: 0x\"<<r3<<std::dec<<\",s0.size(): \"<<s0.size()<<\",s1.size(): \"<<s1.size()<<\",s2.size(): \"<<s2.size()<<std::endl;"]
      else [])
  ++ (if 5 ≤ dl then
        ["std::cerr<<\"    s0: (hex,top here)\"<<s0<<std::endl;",
         "std::cerr<<\"    s1: (hex,top here)\"<<s1<<std::endl;",
         "std::cerr<<\"    s2: (hex,top here)\"<<s2<<std::endl;"]
      else [])
  ++ (if 3 ≤ dl then ["std::cerr<<\"    " ++ instruction ++ "\"<<std::endl;"] else [])

/-- The body of the `lshift` translation (lan22_cxx.py:115-133). -/
def lshiftSteps : List String :=
  ["\x7b",
   "    std::int8_t r1_8 = r1 & 0xff;",
   "    if(r1_8 >= 0)\x7b",
   "        if(r1_8 >= 64)\x7b",
   "            r2 = 0;",
   "        \x7delse\x7b",
   "            r2 = r0 << r1_8;",
   "        \x7d",
   "    \x7delse\x7b",
   "        r1_8 = -r1_8;",
   "        if(r1_8 >= 64)\x7b",
   "            r2 = 0;",
   "        \x7delse\x7b",
   "            r2 = r0 >> r1_8;",
   "        \x7d",
   "    \x7d",
   "\x7d"]

/-- `CPlusPlusGenerator.line` (lan22_cxx.py:107-202): one instruction token of
the parsed tree, dispatched by string comparison exactly as in the source;
an unrecognized token raises `ParseError`. -/
def genLine (dl : Nat) (st : GenState) (instruction : String) : Except PyErr GenState :=
  let dbg := debugSteps dl instruction
  if instruction = "nand" then addSteps st (dbg ++ ["r2 = r0 & r1;", "r2 = ~r2;"])
  else if instruction = "lshift" then addSteps st (dbg ++ lshiftSteps)
  else if instruction = "push8s0" then addSteps st (dbg ++ ["s0.push(r0 & 0xff);"])
  else if instruction = "pop8s0" then
    addSteps st (dbg ++ ["r0 ^= (r0 & 0xff);", "r0 |= s0.top();", "s0.pop();"])
  else if instruction = "push8s1" then addSteps st (dbg ++ ["s1.push(r1 & 0xff);"])
  else if instruction = "pop8s1" then
    addSteps st (dbg ++ ["r1 ^= (r1 & 0xff);", "r1 |= s1.top();", "s1.pop();"])
  else if instruction = "push8s2" then addSteps st (dbg ++ ["s2.push(r2 & 0xff);"])
  else if instruction = "pop8s2" then
    addSteps st (dbg ++ ["r2 ^= (r2 & 0xff);", "r2 |= s2.top();", "s2.pop();"])
  else if instruction = "call" then addSteps st (dbg ++ ["ftable[r0]();"])
  else if instruction = "print" then addSteps st (dbg ++ ["std::cout.put(r0 & 0xff);"])
  else if instruction = "read" then addSteps st (dbg ++ ["r0 |= std::cin.get();"])
  else if instruction = "exit" then addSteps st (dbg ++ ["std::exit(r0);"])
  else if instruction = "startfunc" then
    .ok { st with functions := st.functions ++ [⟨"", "void", none, [], [], dl⟩] }
  else if instruction = "endfunc" then do
    let (fid, c2) := st.cts.pop64
    let fs ← modifyLast st.functions
      (fun fn => { fn with name := "f" ++ (⟨pyBin fid⟩ : String), fid := some fid })
    .ok { st with functions := fs, cts := c2 }
  else if instruction = "deflabel" then do
    let st1 ← addSteps st dbg
    let (lid, c2) := st1.cts.pop64
    let fs ← modifyLast st1.functions
      (fun fn => { fn with steps := fn.steps ++ [labelName lid ++ ":;"],
                           labelIds := fn.labelIds ++ [lid] })
    .ok { st1 with functions := fs, cts := c2 }
  else if instruction = "zero" then .ok { st with cts := st.cts.push1 0 }
  else if instruction = "one" then .ok { st with cts := st.cts.push1 1 }
  else if instruction = "ifz" then
    addSteps st (dbg ++ ["if(r1 == 0)\x7b", "    " ++ GOTO, "\x7d"])
  else if instruction = "pushl8" then do
    let (b, c2) := st.cts.pop8
    let st1 ← addSteps st (dbg ++ ["s0.push(" ++ toString b ++ ");"])
    .ok { st1 with cts := c2 }
  else if instruction = "xchg03" then addSteps st (dbg ++ ["std::swap(r0,r3);"])
  else if instruction = "xchg13" then addSteps st (dbg ++ ["std::swap(r1,r3);"])
  else if instruction = "xchg23" then addSteps st (dbg ++ ["std::swap(r2,r3);"])
  else .error (.valueError ("invalid instruction " ++ instruction))

/-- Feed an instruction stream through `CPlusPlusGenerator.line`. -/
def genRun (dl : Nat) (instrs : List String) : Except PyErr GenState :=
  instrs.foldlM (genLine dl) ⟨[], ⟨0⟩⟩

/-- `re.match(f"( *){GOTO}", step)`: leading spaces followed by the `__GOTO__`
marker; returns the captured indent. -/
def gotoIndent (step : String) : Option String :=
  let cs := step.toList
  let sp := cs.takeWhile (fun c => c == ' ')
  if (cs.drop sp.length).take 8 = GOTO.toList then some ⟨sp⟩ else none

/-- The runtime dispatch a `__GOTO__` marker expands to (lan22_cxx.py:54-65):
a `switch` over `r0` with one `case` per defined label and a `default` that
prints `invalid label id` and exits with status 1 at run time. -/
def gotoLines (m1 : String) (labelIds : List Nat) : List String :=
  ["    " ++ m1 ++ "switch(r0)\x7b"]
  ++ labelIds.map (fun lid =>
       "    " ++ m1 ++ "    case " ++ toString lid ++ ":goto " ++ labelName lid ++ ";break;")
  ++ ["    " ++ m1 ++ "    default:\x7bstd::cerr<<\"invalid label id \"<<r0<<std::endl;std::exit(1);\x7d",
      "    " ++ m1 ++ "\x7d"]

/-- `Function.__str__` (lan22_cxx.py:44-71) as a list of emitted lines. -/
def renderFunc (f : CxxFunc) : List String :=
  [f.rettype ++ " " ++ f.name ++ "()\x7b"]
  ++ (if 3 ≤ f.debugLevel then ["    std::cerr<<\";start " ++ f.name ++ "\"<<std::endl;"] else [])
  ++ (f.steps.map (fun step =>
        match gotoIndent step with
        | some m1 => gotoLines m1 f.labelIds
        | none => ["    " ++ step])).flatten
  ++ (if 3 ≤ f.debugLevel then ["    std::cerr<<\";end " ++ f.name ++ "\"<<std::endl;"] else [])
  ++ ["\x7d"]

/-! ## Support definitions used in the claim statements -/

/-- Push the `one`/`zero` instruction lines emitted by the literal encoder onto
a compile-time stack, the way the backends execute them. -/
def pushLines (ls : List String) (s : Stack) : Stack :=
  ls.foldl (fun st l => if l = "one" then st.push1 1 else st.push1 0) s

/-- Read a byte as an 8-bit two's-complement value. -/
def twosDecode8 (b : Nat) : Int :=
  if b < 128 then (b : Int) else (b : Int) - 256

/-- Push a bit list (oldest first) onto a compile-time stack. -/
def pushBits (bs : List Nat) (s : Stack) : Stack :=
  bs.foldl Stack.push1 s

/-- The value represented by a bit list, oldest/most significant first. -/
def bitsValN (bs : List Nat) : Nat :=
  bs.foldl (fun a b => 2 * a + b) 0

/-- Encode a byte sequence for stack 0 with `_encode_stack_initializer`, then
decode the tagged result with `_decode_stack_initializer`, returning what ends
up seeded on stack 0. -/
def roundTripS0 (values : List Nat) : Except PyErr (List Nat) := do
  let line ← taggedInitLine 0 values
  let (a, _, _) ← decodeStackInit line
  .ok a

/-- A resolved function table with a one-byte id (3 bits) and a two-byte id
(9 bits), for exercising `resolve_callfunc`. -/
def demoFuncs : List (String × Int) := [("f", 256), ("g", 5)]

/-- A self-referential macro table: `a` expands to an invocation of `a`. -/
def cycMacros : List (String × MacroDef) := [("a", ⟨[], ["#a"]⟩)]

/-- A function body that defines auto-label `loop` (id 0) and pushes `l{loop}`. -/
def demoBody0 : List PLine :=
  [.pseudo "" (.autolabel "loop"), .pseudo "" (.autopushltor0 (.lref "loop"))]

/-- A function body that defines auto-labels `x` (id 0) and `loop` (id 1) and
pushes `l{loop}`: its `loop` collides by name with `demoBody0`'s. -/
def demoBody1 : List PLine :=
  [.pseudo "" (.autolabel "x"), .pseudo "" (.autolabel "loop"),
   .pseudo "" (.autopushltor0 (.lref "loop"))]

/-! # Theorems

Helper lemmas first, then one theorem per claim of the specification review
(with witnesses and counterexamples where required). -/

theorem Stack.push1_val (s : Stack) (b : Nat) (hb : b ≤ 1) :
    (s.push1 b).val = 2 * s.val + b := by
  show (s.val <<< 1) ||| b = 2 * s.val + b
  rw [Nat.shiftLeft_eq]
  have hlt : b < 2 ^ 1 := by omega
  calc s.val * 2 ^ 1 ||| b = 2 ^ 1 * s.val ||| b := by rw [Nat.mul_comm]
    _ = 2 ^ 1 * s.val + b := (Nat.mul_add_lt_is_or hlt s.val).symm
    _ = 2 * s.val + b := by norm_num

theorem Stack.pop8_of_lt (v : Nat) (h : v < 256) : Stack.pop8 ⟨v⟩ = (v, ⟨0⟩) := by
  have h1 : v &&& 0xff = v := by
    have e : (0xff : Nat) = 2 ^ 8 - 1 := by norm_num
    rw [e, Nat.and_pow_two_sub_one_eq_mod, Nat.mod_eq_of_lt (by norm_num; omega)]
  have h2 : v >>> 8 = 0 := by
    rw [Nat.shiftRight_eq_div_pow]
    exact Nat.div_eq_of_lt (by norm_num; omega)
  simp [Stack.pop8, h1, h2]

theorem Stack.pop64_of_lt (v : Nat) (h : v < 2 ^ 64) : Stack.pop64 ⟨v⟩ = (v, ⟨0⟩) := by
  have h1 : v &&& 0xFFFFFFFFFFFFFFFF = v := by
    have e : (0xFFFFFFFFFFFFFFFF : Nat) = 2 ^ 64 - 1 := by norm_num
    rw [e, Nat.and_pow_two_sub_one_eq_mod, Nat.mod_eq_of_lt h]
  have h2 : v >>> 64 = 0 := by
    rw [Nat.shiftRight_eq_div_pow]
    exact Nat.div_eq_of_lt h
  simp [Stack.pop64, h1, h2]

theorem pushBits_val (bs : List Nat) (s : Stack) (h : ∀ b ∈ bs, b ≤ 1) :
    (pushBits bs s).val = bs.foldl (fun a b => 2 * a + b) s.val := by
  induction bs generalizing s with
  | nil => rfl
  | cons b rest ih =>
    have hb : b ≤ 1 := h b (by simp)
    have step : (s.push1 b).val = 2 * s.val + b := Stack.push1_val s b hb
    simp only [pushBits, List.foldl_cons] at *
    rw [ih (s.push1 b) (fun x hx => h x (by simp [hx])), step]

theorem bits_foldl_lt (bs : List Nat) (a : Nat) (h : ∀ b ∈ bs, b ≤ 1) :
    bs.foldl (fun x b => 2 * x + b) a < (a + 1) * 2 ^ bs.length := by
  induction bs generalizing a with
  | nil => simp
  | cons b rest ih =>
    have hb : b ≤ 1 := h b (by simp)
    have ihh := ih (2 * a + b) (fun x hx => h x (by simp [hx]))
    calc (b :: rest).foldl (fun x b => 2 * x + b) a
        = rest.foldl (fun x b => 2 * x + b) (2 * a + b) := by simp
      _ < (2 * a + b + 1) * 2 ^ rest.length := ihh
      _ ≤ ((a + 1) * 2) * 2 ^ rest.length := by
          apply Nat.mul_le_mul_right
          omega
      _ = (a + 1) * 2 ^ (rest.length + 1) := by ring
      _ = (a + 1) * 2 ^ (b :: rest).length := by simp

theorem pushBits_eq (bs : List Nat) (h : ∀ b ∈ bs, b ≤ 1) :
    pushBits bs ⟨0⟩ = ⟨bitsValN bs⟩ := by
  have hv := pushBits_val bs ⟨0⟩ h
  cases he : pushBits bs ⟨0⟩ with
  | mk w => rw [he] at hv; simpa [bitsValN] using hv

theorem bitsValN_lt (bs : List Nat) (h : ∀ b ∈ bs, b ≤ 1) :
    bitsValN bs < 2 ^ bs.length := by
  have := bits_foldl_lt bs 0 h
  simpa [bitsValN] using this

/-- C5 counterexample: after pushing a single bit, `Stack.pop8` and
`Stack.pop64` succeed and return the zero-filled value 1 — no error of any
kind is raised, contradicting the claim that a fixed-width pop of more bits
than were pushed is a fatal error. -/
theorem c5_pop_underflow_counterexample :
    ((Stack.mk 0).push1 1).pop8 = (1, Stack.mk 0) ∧
    ((Stack.mk 0).push1 1).pop64 = (1, Stack.mk 0) := by
  constructor <;> rfl

/-- C5 (amended): `Stack.pop8` / `Stack.pop64` (as invoked by `pushl8`,
`endfunc` and `deflabel` in the backends) never signal underflow: when fewer
than 8 (respectively 64) bits have been pushed onto a fresh stack, the pop
returns the pushed bits zero-filled to the full width and leaves the stack
empty. -/
theorem c5_pop_zero_fill (bs : List Nat) (h : ∀ b ∈ bs, b ≤ 1) :
    (bs.length < 8 → (pushBits bs ⟨0⟩).pop8 = (bitsValN bs, ⟨0⟩)) ∧
    (bs.length < 64 → (pushBits bs ⟨0⟩).pop64 = (bitsValN bs, ⟨0⟩)) := by
  constructor
  · intro hlen
    rw [pushBits_eq bs h]
    apply Stack.pop8_of_lt
    calc bitsValN bs < 2 ^ bs.length := bitsValN_lt bs h
      _ ≤ 2 ^ 7 := Nat.pow_le_pow_right (by norm_num) (by omega)
      _ < 256 := by norm_num
  · intro hlen
    rw [pushBits_eq bs h]
    apply Stack.pop64_of_lt
    calc bitsValN bs < 2 ^ bs.length := bitsValN_lt bs h
      _ ≤ 2 ^ 63 := Nat.pow_le_pow_right (by norm_num) (by omega)
      _ < 2 ^ 64 := by norm_num

/-- C5 witness: three pushed bits `1,0,1` pop as the zero-filled byte (and
64-bit word) `5`. -/
theorem c5_pop_zero_fill_witness :
    (pushBits [1, 0, 1] ⟨0⟩).pop8 = (5, ⟨0⟩) ∧
    (pushBits [1, 0, 1] ⟨0⟩).pop64 = (5, ⟨0⟩) := by
  have h := c5_pop_zero_fill [1, 0, 1] (by decide)
  exact ⟨(h.1 (by decide)).trans (by rfl), (h.2 (by decide)).trans (by rfl)⟩

theorem binAux_val (fuel : Nat) : ∀ n : Nat, n ≤ fuel → binVal (binAux fuel n) = n := by
  induction fuel with
  | zero => intro n hn; interval_cases n; rfl
  | succ f ih =>
    intro n hn
    match n with
    | 0 => rfl
    | m + 1 =>
      have hdiv : (m + 1) / 2 ≤ f := by
        have := Nat.div_lt_self (Nat.succ_pos m) (by norm_num : 1 < 2)
        omega
      have ihv := ih ((m + 1) / 2) hdiv
      show binVal (binAux f ((m + 1) / 2) ++ [if (m + 1) % 2 = 1 then '1' else '0']) = m + 1
      unfold binVal at ihv ⊢
      rw [List.foldl_append]
      rw [ihv]
      simp only [List.foldl_cons, List.foldl_nil]
      have hmod := Nat.div_add_mod (m + 1) 2
      by_cases hm : (m + 1) % 2 = 1
      · simp [hm]; omega
      · have : (m + 1) % 2 = 0 := by omega
        simp [hm, this]; omega

theorem pyBin_val (n : Nat) : binVal (pyBin n) = n := by
  by_cases h : n = 0
  · subst h; rfl
  · unfold pyBin; rw [if_neg h]; exact binAux_val n n le_rfl

theorem binAux_len (fuel : Nat) : ∀ n k : Nat, n < 2 ^ k → (binAux fuel n).length ≤ k := by
  induction fuel with
  | zero => intro n k _; simp [binAux]
  | succ f ih =>
    intro n k hn
    match n with
    | 0 => simp [binAux]
    | m + 1 =>
      match k with
      | 0 => simp at hn
      | j + 1 =>
        have hdiv : (m + 1) / 2 < 2 ^ j := by
          rw [Nat.div_lt_iff_lt_mul (by norm_num : 0 < 2)]
          have : 2 ^ (j + 1) = 2 ^ j * 2 := by ring
          omega
        have := ih ((m + 1) / 2) j hdiv
        show (binAux f ((m + 1) / 2) ++ [if (m + 1) % 2 = 1 then '1' else '0']).length ≤ j + 1
        rw [List.length_append]
        simp only [List.length_cons, List.length_nil]
        omega

theorem pyBin_len_le (n k : Nat) (hn : n < 2 ^ k) (hk : 1 ≤ k) :
    (pyBin n).length ≤ k := by
  by_cases h : n = 0
  · subst h; simpa [pyBin] using hk
  · unfold pyBin; rw [if_neg h]; exact binAux_len n n k hn

theorem pushLines_val (chars : List Char) (s : Stack) :
    (pushLines (chars.map (fun d => if d = '1' then "one" else "zero")) s).val
      = chars.foldl (fun a c => 2 * a + (if c = '1' then 1 else 0)) s.val := by
  induction chars generalizing s with
  | nil => rfl
  | cons c rest ih =>
    simp only [List.map_cons, List.foldl_cons, pushLines] at *
    by_cases hc : c = '1'
    · simp only [hc, if_pos rfl, reduceIte]
      rw [ih (s.push1 1), Stack.push1_val s 1 (by omega)]
    · have hne : (if c = '1' then "one" else "zero") = "zero" := by simp [hc]
      rw [hne]
      have : ("zero" = "one") = False := by simp
      simp only [this, if_false, reduceIte]
      rw [ih (s.push1 0), Stack.push1_val s 0 (by omega)]
      simp [hc]

/-- C3: for every literal `${number[:bitwidth]}` handled by `resolve_literal`:
a non-negative value whose minimal binary representation fits the declared
bitwidth is replaced by exactly those digits, most significant first, one
`one`/`zero` line per bit; a negative value not below `-2^bitwidth` is emitted
as the binary digits of `2^bitwidth − abs(value)`; consequently every
`n ∈ [-128, 127]` round-trips through its 8-bit two's-complement encoding when
the emitted bits are pushed on an empty compile-time stack and drained with
`pop8`. -/
theorem c3_resolve_literal (n : Int) (bw : Nat) (ind line : String) :
    (0 ≤ n → (pyBin n.toNat).length ≤ bw →
      literalLines ind n bw line
        = (pyBin n.toNat).map (fun d => ind ++ (if d = '1' then "one" else "zero"))) ∧
    (n < 0 → -(2 ^ bw : Int) ≤ n →
      literalLines ind n bw line
        = (pyBin ((2 ^ bw : Int) + n).toNat).map
            (fun d => ind ++ (if d = '1' then "one" else "zero"))) ∧
    (-128 ≤ n → n ≤ 127 →
      twosDecode8 ((pushLines (literalLines "" n 8 line) ⟨0⟩).pop8).1 = n) := by
  have hpos : ∀ (i l : String) (bwa : Nat), 0 ≤ n → (pyBin n.toNat).length ≤ bwa →
      literalLines i n bwa l
        = (pyBin n.toNat).map (fun d => i ++ (if d = '1' then "one" else "zero")) := by
    intro i l bwa h0 hlen
    unfold literalLines
    rw [if_pos h0, if_neg (by omega)]
  have hneg : ∀ (i l : String) (bwa : Nat), n < 0 → -(2 ^ bwa : Int) ≤ n →
      literalLines i n bwa l
        = (pyBin ((2 ^ bwa : Int) + n).toNat).map
            (fun d => i ++ (if d = '1' then "one" else "zero")) := by
    intro i l bwa hlt hge
    unfold literalLines
    rw [if_neg (by omega)]
    have harg : (2 ^ bwa : Int) - (n.natAbs : Int) = (2 ^ bwa : Int) + n := by
      have : ((n.natAbs : Int)) = -n := by omega
      rw [this]; ring
    rw [harg]
    have hnn : ¬ ((2 ^ bwa : Int) + n < 0) := by omega
    unfold pyBinInt
    rw [if_neg hnn]
  have stack_eq : ∀ v : Nat,
      pushLines ((pyBin v).map (fun d => "" ++ (if d = '1' then "one" else "zero"))) ⟨0⟩
        = ⟨v⟩ := by
    intro v
    have he : ((pyBin v).map (fun d => "" ++ (if d = '1' then "one" else "zero")))
        = ((pyBin v).map (fun d => (if d = '1' then "one" else "zero"))) := by
      apply List.map_congr_left
      intro d _
      rfl
    have hv : (pushLines ((pyBin v).map
        (fun d => "" ++ (if d = '1' then "one" else "zero"))) ⟨0⟩).val = v := by
      rw [he, pushLines_val]
      exact pyBin_val v
    cases hh : pushLines ((pyBin v).map
        (fun d => "" ++ (if d = '1' then "one" else "zero"))) ⟨0⟩ with
    | mk w =>
      rw [hh] at hv
      exact congrArg Stack.mk hv
  refine ⟨hpos ind line bw, fun a b => hneg ind line bw a b, ?_⟩
  intro hge hle
  by_cases h0 : 0 ≤ n
  · have hlt256 : n.toNat < 256 := by omega
    have hlen : (pyBin n.toNat).length ≤ 8 :=
      pyBin_len_le n.toNat 8 (by norm_num; omega) (by norm_num)
    rw [hpos "" line 8 h0 hlen, stack_eq n.toNat, Stack.pop8_of_lt n.toNat hlt256]
    show twosDecode8 n.toNat = n
    unfold twosDecode8
    rw [if_pos (by omega)]
    omega
  · push_neg at h0
    have hge2 : -((2 : Int) ^ 8) ≤ n := by norm_num; omega
    have hv2hi : ((2 ^ 8 : Int) + n).toNat < 256 := by
      have : ((2 : Int) ^ 8) = 256 := by norm_num
      omega
    rw [hneg "" line 8 h0 hge2, stack_eq (((2 ^ 8 : Int) + n).toNat),
        Stack.pop8_of_lt _ hv2hi]
    show twosDecode8 ((2 ^ 8 : Int) + n).toNat = n
    unfold twosDecode8
    have h28 : ((2 : Int) ^ 8) = 256 := by norm_num
    rw [if_neg (by omega)]
    omega

/-- C3 witness: `${255:8}` emits eight `one` lines, `${0:8}` emits one `zero`
line, and `-128` round-trips through its 8-bit two's-complement encoding. -/
theorem c3_resolve_literal_witness :
    literalLines "" 255 8 "x" = List.replicate 8 "one" ∧
    literalLines "" 0 8 "x" = ["zero"] ∧
    twosDecode8 ((pushLines (literalLines "" (-128) 8 "x") ⟨0⟩).pop8).1 = -128 := by
  refine ⟨?_, ?_, ?_⟩
  · have h := (c3_resolve_literal 255 8 "" "x").1 (by decide) (by decide)
    rw [h]; rfl
  · have h := (c3_resolve_literal 0 8 "" "x").1 (by decide) (by decide)
    rw [h]; rfl
  · exact (c3_resolve_literal (-128) 8 "" "x").2.2 (by decide) (by decide)

/-- C4 counterexample: on the input lines `${256:8}` and `nand`, the literal
pass does not abort: it returns normally, replaces the overflowing literal by
the `!!!!!!!error!!!!!!!` marker line, and still processes the following line.
No exception is raised (the pass is a total function on this input), refuting
the claim that an overflowing literal is a fatal error that aborts
processing. -/
theorem c4_no_abort_counterexample :
    resolveLiteralPass ["$\x7b256:8\x7d", "nand"]
      = .ok ["!!!!!!!error!!!!!!! $\x7b256:8\x7d", "nand"] := by
  rfl

/-- C4 (amended): a non-negative literal whose binary representation needs more
bits than declared makes `resolve_literal` log an error and replace the line
with a single `!!!!!!!error!!!!!!!` marker line — no `one`/`zero` instructions
are emitted for it — and processing continues with the remaining lines; the
pass does not abort. -/
theorem c4_overflow_marker (line : String) (rest : List String) (ind numStr : String)
    (bwStr : Option String) (v : Int)
    (hf : findLiteral line = some (ind, numStr, bwStr))
    (hp : pyInt0 numStr.toList = .ok v)
    (h0 : 0 ≤ v)
    (hbw : bwOf bwStr < (pyBin v.toNat).length) :
    resolveLiteralPass (line :: rest)
      = (resolveLiteralPass rest).map
          (fun out => (ind ++ "!!!!!!!error!!!!!!! " ++ line) :: out) := by
  have hlit : literalLines ind v (bwOf bwStr) line
      = [ind ++ "!!!!!!!error!!!!!!! " ++ line] := by
    unfold literalLines
    rw [if_pos h0, if_pos hbw]
  show (match findLiteral line with
    | none => do
      let out ← resolveLiteralPass rest
      Except.ok (line :: out)
    | some (ind, numStr, bwStr) => do
      let value ← pyInt0 numStr.toList
      let out ← resolveLiteralPass rest
      Except.ok (literalLines ind value (bwOf bwStr) line ++ out)) = _
  rw [hf]
  show (do
    let value ← pyInt0 numStr.toList
    let out ← resolveLiteralPass rest
    Except.ok (literalLines ind value (bwOf bwStr) line ++ out)) = _
  rw [hp]
  cases hrest : resolveLiteralPass rest with
  | error e => rfl
  | ok out =>
    show Except.ok (literalLines ind v (bwOf bwStr) line ++ out)
      = Except.ok ((ind ++ "!!!!!!!error!!!!!!! " ++ line) :: out)
    rw [hlit]
    rfl

/-- C4 witness: `${999:4}` alone yields exactly the marker line. -/
theorem c4_overflow_marker_witness :
    resolveLiteralPass ["$\x7b999:4\x7d"]
      = .ok ["!!!!!!!error!!!!!!! $\x7b999:4\x7d"] := by
  have h := c4_overflow_marker "$\x7b999:4\x7d" [] "" "999" (some "4") 999
    (by rfl) (by rfl) (by decide) (by decide)
  exact h.trans (by rfl)

set_option maxRecDepth 400000 in
/-- C1: the stack-initializer codec round-trips byte sequences of length 0, 1
and 7 (including bytes 0x4F/0x49/0x32, whose base32 images collide with the
tag alphabet), but a 300-byte sequence — indeed any byte sequence whose length
is a positive multiple of 5 — makes the decoder raise
`binascii.Error("Incorrect padding")`: its unpadded base32 image has a length
that is a multiple of 8, and `"=" * (8 - len % 8)` (base.py:142) then appends
eight pad characters, which CPython's `b32decode` rejects.  The original bytes
are not recovered, contradicting the round-trip claim for length 300. -/
theorem c1_stack_initializer_roundtrip :
    roundTripS0 [] = .ok [] ∧
    roundTripS0 [65] = .ok [65] ∧
    roundTripS0 [79, 73, 50, 1, 2, 255, 0] = .ok [79, 73, 50, 1, 2, 255, 0] ∧
    roundTripS0 (List.replicate 300 7) = .error (.binasciiError "Incorrect padding") := by
  refine ⟨rfl, rfl, rfl, ?_⟩
  rfl

/-- C2: the `\call` lowering.  For the one-byte id 5 the sequence, run from a
machine with `r0 = 0`, `r1 = 7` and empty stacks, leaves `r0 = 5` immediately
before the final `call` with `r1` intact.  For the two-byte id 256 the very
same start state makes the sequence fail before reaching `call`: the source
emits `${8}` directly followed by `pop8s0` (extension_resolver.py:260-261),
without the `pushl8` that its sibling `resolve_dependant_pseudo_ops` emits, so
the byte stack `s0` underflows (and the `1000` bits of the `${8}` literal are
left to corrupt the compile-time stack).  `r0` does not equal the target id
before `call`, contradicting the claim for multi-byte ids. -/
theorem c2_call_sequence :
    runCallBeforeCall demoFuncs "g" ⟨0, 7, 0, 0, [], [], [], ⟨0⟩⟩
      = some ⟨5, 7, 0, 0, [], [], [], ⟨0⟩⟩ ∧
    runCallBeforeCall demoFuncs "f" ⟨0, 7, 0, 0, [], [], [], ⟨0⟩⟩ = none := by
  constructor <;> rfl

theorem bind_ok_error {α β : Type} (m : Except PyErr α) (f : α → β) (err : PyErr)
    (h : (m >>= fun a => Except.ok (f a)) = .error err) : m = .error err := by
  cases m with
  | error e =>
    have : e = err := by
      simpa [bind, Except.bind] using h
    rw [this]
  | ok a => simp [bind, Except.bind] at h

theorem pyIntOctal_error (l : List Char) (e : PyErr) (h : pyIntOctal l = .error e) :
    e.isValueError = true := by
  unfold pyIntOctal at h
  split at h
  · simp at h
  · simp only [Except.error.injEq] at h
    rw [← h]
    rfl

theorem decompressBase32_def (s : List Char) :
    decompressBase32 s = decompAux false false none [] s := rfl

theorem decompAux_error :
    ∀ (l : List Char) (e r : Bool) (p : Option Char) (rep : List Char) (err : PyErr),
      decompAux e r p rep l = .error err → err.isValueError = true := by
  intro l
  induction l with
  | nil =>
    intro e r p rep err h
    simp [decompAux] at h
  | cons c rest ih =>
    intro e r p rep err h
    unfold decompAux at h
    split at h
    · exact ih _ _ _ _ _ h
    · split at h
      · split at h
        · exact ih _ _ _ _ _ (bind_ok_error _ _ _ h)
        · split at h
          · exact ih _ _ _ _ _ h
          · split at h
            · -- the `\E` branch: the run count is parsed with int(…, 8)
              cases hoct : pyIntOctal (transOI rep) with
              | error e2 =>
                rw [hoct] at h
                have : e2 = err := by simpa [bind, Except.bind] using h
                exact this ▸ pyIntOctal_error _ _ hoct
              | ok count =>
                rw [hoct] at h
                simp only [bind, Except.bind] at h
                exact ih _ _ _ _ _ (bind_ok_error _ _ _ h)
            · exact ih _ _ _ _ _ (bind_ok_error _ _ _ h)
      · split at h
        · exact ih _ _ _ _ _ h
        · exact ih _ _ _ _ _ (bind_ok_error _ _ _ h)

theorem decomp_bs1 (s : List Char) :
    decompressBase32 ('\\' :: '1' :: s)
      = (decompAux false false none [] s) >>= fun r => Except.ok ('\\' :: '1' :: r) := by
  rfl

theorem decomp_start (c : Char) (s : List Char) (h : c ≠ '\\') :
    decompAux false false none [] (c :: s)
      = (decompAux false false (some c) [] s) >>= fun r => Except.ok (c :: r) := by
  rw [decompAux, if_neg h]
  rfl

theorem splitOnChar_cons_eq (sep x : Char) (l : List Char) :
    splitOnChar sep (x :: l)
      = (match splitOnChar sep l with
         | [] => [[]]
         | g :: gs => if x = sep then [] :: g :: gs else (x :: g) :: gs) := rfl

theorem splitOnChar_ne_nil (sep : Char) (l : List Char) : splitOnChar sep l ≠ [] := by
  induction l with
  | nil => simp [splitOnChar]
  | cons c rest ih =>
    rw [splitOnChar_cons_eq]
    cases hg : splitOnChar sep rest with
    | nil => exact absurd hg ih
    | cons g gs =>
      by_cases hc : c = sep <;> simp [hc]

theorem splitOnChar_sep_cons (sep : Char) (l : List Char) :
    splitOnChar sep (sep :: l) = [] :: splitOnChar sep l := by
  rw [splitOnChar_cons_eq]
  cases hg : splitOnChar sep l with
  | nil => exact absurd hg (splitOnChar_ne_nil _ _)
  | cons g gs => simp

theorem splitOnChar_cons_ne (sep x : Char) (l : List Char) (h : x ≠ sep) :
    ∃ g gs, splitOnChar sep l = g :: gs ∧ splitOnChar sep (x :: l) = (x :: g) :: gs := by
  cases hg : splitOnChar sep l with
  | nil => exact absurd hg (splitOnChar_ne_nil _ _)
  | cons g gs =>
    refine ⟨g, gs, rfl, ?_⟩
    rw [splitOnChar_cons_eq, hg]
    simp [h]

/-- C10: for every non-empty accumulated stack-initializer string whose first
character is not a backslash, `_decode_stack_initializer` prepends `\1`; the
tag character `1` is not in the tag alphabet `OI2`, so decoding always raises
an uncaught `ValueError` (either the `"OI2".index` lookup, or — if the
decompression state machine trips first — the `int(…, 8)` of a malformed run
count, also a `ValueError`), and no byte-stack is seeded (the function aborts
before any assignment). -/
theorem c10_untagged_initializer_valueerror (c : Char) (s : List Char) (h : c ≠ '\\') :
    ∃ err, decodeStackInit (c :: s) = .error err ∧ err.isValueError = true := by
  show ∃ err,
    (do
      let s1 := if c ≠ '\\' then '\\' :: '1' :: (c :: s) else (c :: s)
      let d ← decompressBase32 s1
      (splitOnChar '\\' d).foldlM seedSegment ([], [], []))
      = .error err ∧ err.isValueError = true
  rw [if_pos h]
  show ∃ err,
    ((decompressBase32 ('\\' :: '1' :: c :: s)) >>= fun d =>
      (splitOnChar '\\' d).foldlM seedSegment ([], [], []))
      = .error err ∧ err.isValueError = true
  rw [decomp_bs1]
  cases hin2 : decompAux false false none [] (c :: s) with
  | error e =>
    refine ⟨e, ?_, decompAux_error _ _ _ _ _ _ hin2⟩
    rfl
  | ok d0 =>
    rw [decomp_start c s h] at hin2
    cases hin3 : decompAux false false (some c) [] s with
    | error e =>
      rw [hin3] at hin2
      simp [bind, Except.bind] at hin2
    | ok r =>
      rw [hin3] at hin2
      have hd0 : d0 = c :: r := by
        have := hin2.symm
        simpa [bind, Except.bind] using this
      subst hd0
      refine ⟨.valueError "substring not found", ?_, rfl⟩
      show ((splitOnChar '\\' ('\\' :: '1' :: c :: r)).foldlM seedSegment ([], [], [])) = _
      obtain ⟨g, gs, _, hsplitc⟩ := splitOnChar_cons_ne '\\' c r h
      obtain ⟨g2, gs2, hsplit3, hsplit4⟩ :=
        splitOnChar_cons_ne '\\' '1' (c :: r) (by decide)
      have hg2 : g2 = c :: g ∧ gs2 = gs := by
        rw [hsplitc] at hsplit3
        exact ⟨((List.cons.injEq .. ▸ hsplit3).1).symm, ((List.cons.injEq .. ▸ hsplit3).2).symm⟩
      rw [splitOnChar_sep_cons, hsplit4, List.foldlM_cons]
      have hfirst : seedSegment ([], [], []) [] = .ok ([], [], []) := rfl
      rw [hfirst]
      show ((('1' :: g2) :: gs2).foldlM seedSegment ([], [], [])) = _
      rw [List.foldlM_cons]
      have hseg : seedSegment ([], [], []) ('1' :: g2)
          = .error (.valueError "substring not found") := by
        rw [hg2.1]
        unfold seedSegment
        rw [if_neg (by simp)]
        rfl
      rw [hseg]
      rfl

/-- C10 witness: the two-character untagged input `AB`. -/
theorem c10_untagged_initializer_valueerror_witness :
    ∃ err, decodeStackInit ['A', 'B'] = .error err ∧ err.isValueError = true :=
  c10_untagged_initializer_valueerror 'A' ['B'] (by decide)

theorem processOnce_cyc : processOnce cycMacros false ["#a"] = .ok (["#a"], true) := by
  rfl

/-- C6 counterexample: with the self-referential macro `a → #a`, every
expansion round returns the same line with `macro_found = true`, so
`_expand_macro_recursive` never reaches a fixpoint: for every fuel the model
returns `outOfFuel` (in Python, the recursion never returns normally and
eventually dies with `RecursionError`).  This refutes the claim that
`expand_macro` terminates for every macro table including self-referential
ones. -/
theorem c6_nontermination_counterexample : ¬ ExpandTerminates cycMacros false ["#a"] := by
  have key : ∀ fuel, expandRec cycMacros false fuel ["#a"] = .error .outOfFuel := by
    intro fuel
    induction fuel with
    | zero => rfl
    | succ f ih =>
      show (do
        let (p, found) ← processOnce cycMacros false ["#a"]
        if found then expandRec cycMacros false f p else .ok p) = .error .outOfFuel
      rw [processOnce_cyc]
      simpa [bind, Except.bind] using ih
  rintro ⟨fuel, hne⟩
  exact hne (key fuel)

theorem processOnce_no_found :
    ∀ (macros : List (String × MacroDef)) (dbg : Bool) (code out : List String),
      processOnce macros dbg code = .ok (out, false) →
      out = code ∧ ∀ l ∈ code, parseInvocation l = none := by
  intro macros dbg code
  induction code with
  | nil =>
    intro out h
    simp [processOnce] at h
    exact ⟨h, by simp⟩
  | cons line rest ih =>
    intro out h
    unfold processOnce at h
    cases hpi : parseInvocation line with
    | none =>
      rw [hpi] at h
      cases hrec : processOnce macros dbg rest with
      | error e => rw [hrec] at h; simp [bind, Except.bind] at h
      | ok pr =>
        rw [hrec] at h
        have h2 : line :: pr.1 = out ∧ pr.2 = false := by
          simpa [bind, Except.bind, Prod.ext_iff] using h
        obtain ⟨hout, hflag⟩ := h2
        have hpr : pr = (pr.1, false) := by rw [← hflag]
        obtain ⟨hrest_eq, hnone⟩ := ih pr.1 (by rw [hrec, hpr])
        constructor
        · rw [← hout, hrest_eq]
        · intro l hl
          rcases List.mem_cons.mp hl with hl | hl
          · rw [hl]; exact hpi
          · exact hnone l hl
    | some v =>
      rw [hpi] at h
      obtain ⟨ind, name, argsO⟩ := v
      -- the invocation branch always reports `found = true` (or errors)
      exfalso
      simp only [bind, Except.bind] at h
      split at h
      all_goals try split at h
      all_goals try split at h
      all_goals try split at h
      all_goals simp_all

/-- C6 (amended): when `_expand_macro_recursive` returns normally, its output
is a fixpoint — no line of it matches the `#name` invocation regex — and an
invocation naming a macro that is neither `stack` nor in the table raises an
uncaught `KeyError`.  (Termination, however, fails for self-referential
macros: see the counterexample.) -/
theorem c6_expand_fixpoint :
    (∀ (macros : List (String × MacroDef)) (dbg : Bool) (fuel : Nat) (code out : List String),
        expandRec macros dbg fuel code = .ok out → ∀ l ∈ out, parseInvocation l = none) ∧
    (∀ (macros : List (String × MacroDef)) (dbg : Bool) (ind name : String)
        (argsO : Option String) (line : String) (rest : List String),
        parseInvocation line = some (ind, name, argsO) → name ≠ "stack" →
        dictGet macros name = none →
        processOnce macros dbg (line :: rest) = .error (.keyError name)) := by
  constructor
  · intro macros dbg fuel
    induction fuel with
    | zero => intro code out h; simp [expandRec] at h
    | succ f ih =>
      intro code out h
      replace h : (do
          let (p, found) ← processOnce macros dbg code
          if found then expandRec macros dbg f p else .ok p) = .ok out := h
      cases hp : processOnce macros dbg code with
      | error e => rw [hp] at h; simp [bind, Except.bind] at h
      | ok pr =>
        rw [hp] at h
        simp only [bind, Except.bind] at h
        by_cases hf : pr.2 = true
        · rw [hf] at h
          simp only [if_true] at h
          exact ih pr.1 out h
        · have hf2 : pr.2 = false := by
            cases hpr2 : pr.2
            · rfl
            · exact absurd hpr2 hf
          rw [hf2] at h
          simp only [if_false, Except.ok.injEq, Bool.false_eq_true] at h
          obtain ⟨hout, hnone⟩ := processOnce_no_found macros dbg code pr.1
            (by rw [hp, ← hf2])
          intro l hl
          exact hnone l (by rw [← hout, h]; exact hl)
  · intro macros dbg ind name argsO line rest hpi hns hget
    unfold processOnce
    rw [hpi]
    simp only [bind, Except.bind]
    rw [if_neg hns, hget]

/-- C6 witness: a terminating expansion yields lines with no invocation match
(instantiated at `expandRec … 1 ["nand"] = ok ["nand"]`), and an unknown macro
name raises `KeyError`. -/
theorem c6_expand_fixpoint_witness :
    parseInvocation "nand" = none ∧
    processOnce [] false ["#zzz x"] = .error (.keyError "zzz") := by
  constructor
  · exact c6_expand_fixpoint.1 [] false 1 ["nand"] ["nand"] (by rfl) "nand" (by simp)
  · exact c6_expand_fixpoint.2 [] false "" "zzz" (some "x") "#zzz x" [] (by rfl)
      (by decide) (by rfl)

/-- C9: a macro declared with the integer argdecl `1` does get one positional
parameter — but as the Python int `0`, not the string `"0"`
(`list(range(int(argdecl)))`, macro_resolver.py:40).  Expanding an invocation
whose body uses the positional placeholder `#{0}` then crashes:
`argnames.index("0")` raises `ValueError` because the string `"0"` never
equals the int `0`, so the documented substitution never happens. -/
theorem c9_positional_macro_valueerror :
    (retrieveMacros ["#defmacro m 1", "#\x7b0\x7d", "#endmacro"]).1
      = [("m", ⟨[ArgName.num 0], ["#\x7b0\x7d"]⟩)] ∧
    (retrieveMacros ["#defmacro m 1", "#\x7b0\x7d", "#endmacro"]).2 = [] ∧
    expandRec (retrieveMacros ["#defmacro m 1", "#\x7b0\x7d", "#endmacro"]).1 false 5 ["#m x"]
      = .error (.valueError "0 is not in list") := by
  exact ⟨rfl, rfl, rfl⟩

/-- C8 counterexample: the program `startfunc; ifz; zero; endfunc` contains an
`ifz` and no `deflabel` at all, yet backend code generation succeeds (no
`ParseError`, no other exception), producing a function whose `__GOTO__`
placeholder renders to a `switch` with no `case` and a `default` branch that
reports `invalid label id` and calls `std::exit(1)` — at run time.  This
refutes the claim that an `ifz` without a matching `deflabel` is a fatal
code-generation error. -/
theorem c8_codegen_succeeds_counterexample :
    genRun 0 ["startfunc", "ifz", "zero", "endfunc"]
      = .ok ⟨[⟨"f0", "void", some 0,
              ["if(r1 == 0)\x7b", "    __GOTO__", "\x7d"], [], 0⟩], ⟨0⟩⟩ ∧
    renderFunc ⟨"f0", "void", some 0,
        ["if(r1 == 0)\x7b", "    __GOTO__", "\x7d"], [], 0⟩
      = ["void f0()\x7b",
         "    if(r1 == 0)\x7b",
         "        switch(r0)\x7b",
         "            default:\x7bstd::cerr<<\"invalid label id \"<<r0<<std::endl;std::exit(1);\x7d",
         "        \x7d",
         "    \x7d",
         "\x7d"] := by
  constructor <;> rfl

/-- C8 (amended): translating `ifz` never fails at code-generation time (as
long as a `startfunc` opened a function), and every rendered `__GOTO__`
placeholder — the only control-transfer the backend emits for `ifz` — contains
the runtime `default` branch that prints `invalid label id` and exits with
status 1.  An `ifz` whose label id has no matching `deflabel` in the same
function therefore fails at run time, not at code-generation time. -/
theorem c8_runtime_guard :
    (∀ (dl : Nat) (st : GenState), st.functions ≠ [] →
        ∃ st2, genLine dl st "ifz" = .ok st2) ∧
    (∀ (f : CxxFunc) (step m1 : String), step ∈ f.steps → gotoIndent step = some m1 →
        ("    " ++ m1
          ++ "    default:\x7bstd::cerr<<\"invalid label id \"<<r0<<std::endl;std::exit(1);\x7d")
          ∈ renderFunc f) := by
  constructor
  · intro dl st hne
    have heq : genLine dl st "ifz"
        = addSteps st (debugSteps dl "ifz" ++ ["if(r1 == 0)\x7b", "    " ++ GOTO, "\x7d"]) := rfl
    rw [heq]
    unfold addSteps modifyLast
    cases hrev : st.functions.reverse with
    | nil =>
      exact absurd (List.reverse_eq_nil_iff.mp hrev) hne
    | cons x rest => exact ⟨_, rfl⟩
  · intro f step m1 hstep hgoto
    have hdef : ("    " ++ m1
        ++ "    default:\x7bstd::cerr<<\"invalid label id \"<<r0<<std::endl;std::exit(1);\x7d")
        ∈ gotoLines m1 f.labelIds := by
      unfold gotoLines
      simp
    have hmem1 : gotoLines m1 f.labelIds ∈ f.steps.map (fun st =>
        match gotoIndent st with
        | some i => gotoLines i f.labelIds
        | none => ["    " ++ st]) := by
      have he : (match gotoIndent step with
          | some i => gotoLines i f.labelIds
          | none => ["    " ++ step]) = gotoLines m1 f.labelIds := by rw [hgoto]
      rw [← he]
      exact List.mem_map_of_mem _ hstep
    have hflat : ("    " ++ m1
        ++ "    default:\x7bstd::cerr<<\"invalid label id \"<<r0<<std::endl;std::exit(1);\x7d")
        ∈ (f.steps.map (fun st =>
            match gotoIndent st with
            | some i => gotoLines i f.labelIds
            | none => ["    " ++ st])).flatten :=
      List.mem_flatten.mpr ⟨gotoLines m1 f.labelIds, hmem1, hdef⟩
    unfold renderFunc
    simp only [List.mem_append]
    exact Or.inl (Or.inl (Or.inr hflat))

/-- C8 witness: the concrete `ifz` translation succeeds from a one-function
state, and the rendered `__GOTO__` marker of the counterexample function
contains the runtime `default`-exit line. -/
theorem c8_runtime_guard_witness :
    (∃ st2, genLine 0 ⟨[⟨"", "void", none, [], [], 0⟩], ⟨0⟩⟩ "ifz" = .ok st2) ∧
    ("    " ++ "    "
      ++ "    default:\x7bstd::cerr<<\"invalid label id \"<<r0<<std::endl;std::exit(1);\x7d")
      ∈ renderFunc ⟨"f0", "void", some 0,
          ["if(r1 == 0)\x7b", "    __GOTO__", "\x7d"], [], 0⟩ := by
  constructor
  · exact c8_runtime_guard.1 0 ⟨[⟨"", "void", none, [], [], 0⟩], ⟨0⟩⟩ (by simp)
  · exact c8_runtime_guard.2 ⟨"f0", "void", some 0,
      ["if(r1 == 0)\x7b", "    __GOTO__", "\x7d"], [], 0⟩ "    __GOTO__" "    "
      (by simp) rfl

theorem dictGet_set_self {α β : Type} [BEq α] [LawfulBEq α] (d : List (α × β)) (k : α) (v : β) :
    dictGet (dictSet d k v) k = some v := by
  induction d with
  | nil => simp [dictGet, dictSet]
  | cons p rest ih =>
    obtain ⟨a, b⟩ := p
    by_cases h : a == k
    · simp [dictSet, dictGet, h]
    · simp [dictSet, dictGet, h, ih]

theorem dictGet_set_ne {α β : Type} [BEq α] [LawfulBEq α] (d : List (α × β)) (k k2 : α)
    (v : β) (h : k2 ≠ k) : dictGet (dictSet d k v) k2 = dictGet d k2 := by
  induction d with
  | nil => simp [dictGet, dictSet, beq_iff_eq, Ne.symm h]
  | cons p rest ih =>
    obtain ⟨a, b⟩ := p
    by_cases ha : a == k
    · have hak : a = k := eq_of_beq ha
      subst hak
      simp [dictSet, dictGet, beq_iff_eq, Ne.symm h]
    · by_cases ha2 : a == k2
      · simp [dictSet, dictGet, ha, ha2]
      · simp [dictSet, dictGet, ha, ha2, ih]

theorem dictSet_set_self {α β : Type} [BEq α] [LawfulBEq α] (d : List (α × β)) (k : α)
    (v w : β) : dictSet (dictSet d k v) k w = dictSet d k w := by
  induction d with
  | nil => simp [dictSet]
  | cons p rest ih =>
    obtain ⟨a, b⟩ := p
    by_cases h : a == k
    · simp [dictSet, h]
    · simp [dictSet, h, ih]

theorem dictSet_get_self {α β : Type} [BEq α] [LawfulBEq α] (d : List (α × β)) (k : α)
    (v : β) (h : dictGet d k = some v) : dictSet d k v = d := by
  induction d with
  | nil => simp [dictGet] at h
  | cons p rest ih =>
    obtain ⟨a, b⟩ := p
    by_cases ha : a == k
    · have hak : a = k := eq_of_beq ha
      subst hak
      simp [dictGet] at h
      simp [dictSet, h]
    · simp [dictGet, ha] at h
      simp [dictSet, ha, ih h]

theorem pass1Go_cons (funcs : List (String × Int)) (dbg : Bool) (st : Pass1State)
    (l : PLine) (rest : List PLine) :
    pass1Go funcs dbg st (l :: rest)
      = (pass1Line funcs dbg st l) >>= (fun r1 =>
          (pass1Go funcs dbg r1.2 rest) >>= (fun r2 =>
            Except.ok (r1.1 ++ r2.1, r2.2))) := by
  show (do
    let (o1, st1) ← pass1Line funcs dbg st l
    let (o2, st2) ← pass1Go funcs dbg st1 rest
    Except.ok (o1 ++ o2, st2)) = _
  cases pass1Line funcs dbg st l with
  | error e => rfl
  | ok r1 => cases pass1Go funcs dbg r1.2 rest with
    | error e => rfl
    | ok r2 => rfl

theorem pass1Go_cons_ok (funcs : List (String × Int)) (dbg : Bool) (st st1 st2 : Pass1State)
    (l : PLine) (rest : List PLine) (out o1 : List OLine)
    (hl : pass1Line funcs dbg st l = .ok (o1, st1))
    (hrun : pass1Go funcs dbg st (l :: rest) = .ok (out, st2)) :
    ∃ o2, pass1Go funcs dbg st1 rest = .ok (o2, st2) ∧ out = o1 ++ o2 := by
  rw [pass1Go_cons, hl] at hrun
  simp only [bind, Except.bind] at hrun
  cases hrest : pass1Go funcs dbg st1 rest with
  | error e => rw [hrest] at hrun; simp at hrun
  | ok pr =>
    rw [hrest] at hrun
    have h2 : o1 ++ pr.1 = out ∧ pr.2 = st2 := by
      simpa [Prod.ext_iff] using hrun
    have hpr : pr = (pr.1, st2) := by rw [← h2.2]
    exact ⟨pr.1, by rw [← hpr], h2.1.symm⟩

theorem applyOp_noDelim (st : Pass1State) (op : Option String)
    (h1 : op ≠ some "startfunc") (h2 : op ≠ some "endfunc") :
    applyOpEffect st op = st := by
  unfold applyOpEffect
  rw [if_neg h1, if_neg h2]

theorem pass1Line_state (funcs : List (String × Int)) (dbg : Bool) (st st1 : Pass1State)
    (l : PLine) (o1 : List OLine)
    (hnd : noDelim l)
    (hnl : ∀ ind arg, l ≠ PLine.pseudo ind (.autolabel arg))
    (hl : pass1Line funcs dbg st l = .ok (o1, st1)) :
    st1 = st := by
  have heff : ∀ s : String, opOfString s = opOfPLine l →
      applyOpEffect st (opOfString s) = st := by
    intro s hs
    exact applyOp_noDelim st _ (hs ▸ hnd.1) (hs ▸ hnd.2)
  cases l with
  | raw s =>
    have h := heff s rfl
    rw [pass1Line] at hl
    rw [h] at hl
    simp at hl
    exact hl.2.symm
  | pseudo ind p =>
    have h := heff (reconstructPLine ind p) rfl
    cases p with
    | call arg =>
      rw [pass1Line] at hl
      rw [h] at hl
      cases hc : resolveCallfuncLines funcs ind arg with
      | error e => rw [hc] at hl; simp [bind, Except.bind] at hl
      | ok ls =>
        rw [hc] at hl
        simp [bind, Except.bind] at hl
        exact hl.2.symm
    | autolabel arg => exact absurd rfl (hnl ind arg)
    | func arg =>
      rw [pass1Line] at hl
      rw [h] at hl
      simp at hl
      exact hl.2.symm
    | pushl8 arg =>
      rw [pass1Line] at hl
      rw [h] at hl
      simp at hl
      exact hl.2.symm
    | pushl64 arg =>
      rw [pass1Line] at hl
      rw [h] at hl
      simp at hl
      exact hl.2.symm
    | autopushltor0 e =>
      rw [pass1Line] at hl
      rw [h] at hl
      simp at hl
      exact hl.2.symm
    | autoliteral e =>
      rw [pass1Line] at hl
      rw [h] at hl
      simp at hl
      exact hl.2.symm
    | unknownOp nm arg =>
      rw [pass1Line] at hl
      rw [h] at hl
      simp at hl
      exact hl.2.symm

theorem pass1Line_autolabel (funcs : List (String × Int)) (dbg : Bool) (st st1 : Pass1State)
    (ind arg : String) (o1 : List OLine) (m0 : List (String × Nat))
    (hnd : noDelim (.pseudo ind (.autolabel arg)))
    (hget : dictGet st.labels st.funcIdx = some m0)
    (hl : pass1Line funcs dbg st (.pseudo ind (.autolabel arg)) = .ok (o1, st1)) :
    st1 = (match extractLabelName arg with
           | some n => ⟨st.funcIdx, st.autoId + 1,
               dictSet st.labels st.funcIdx (dictSet m0 n st.autoId)⟩
           | none => st) := by
  have h := applyOp_noDelim st (opOfString (reconstructPLine ind (.autolabel arg))) hnd.1 hnd.2
  rw [pass1Line] at hl
  rw [h] at hl
  cases hname : extractLabelName arg with
  | none =>
    rw [hname] at hl
    simp at hl
    exact hl.2.symm
  | some n =>
    rw [hname] at hl
    rw [hget] at hl
    simp at hl
    exact hl.2.symm

theorem pass1Line_push (funcs : List (String × Int)) (dbg : Bool) (st st1 : Pass1State)
    (ind : String) (e : LExpr) (o1 : List OLine)
    (hnd : noDelim (.pseudo ind (.autopushltor0 e)))
    (hl : pass1Line funcs dbg st (.pseudo ind (.autopushltor0 e)) = .ok (o1, st1)) :
    OLine.deferredPush ind (mangleExpr st.funcIdx e) ∈ o1 := by
  have h := applyOp_noDelim st (opOfString (reconstructPLine ind (.autopushltor0 e))) hnd.1 hnd.2
  rw [pass1Line] at hl
  rw [h] at hl
  simp at hl
  rw [← hl.1]
  simp

theorem pass1Go_append (funcs : List (String × Int)) (dbg : Bool) :
    ∀ (xs ys : List PLine) (st : Pass1State) (out : List OLine) (st2 : Pass1State),
      pass1Go funcs dbg st (xs ++ ys) = .ok (out, st2) →
      ∃ o1 stm o2, pass1Go funcs dbg st xs = .ok (o1, stm) ∧
        pass1Go funcs dbg stm ys = .ok (o2, st2) ∧ out = o1 ++ o2 := by
  intro xs
  induction xs with
  | nil => intro ys st out st2 h; exact ⟨[], st, out, rfl, h, rfl⟩
  | cons x xs ih =>
    intro ys st out st2 h
    cases hx : pass1Line funcs dbg st x with
    | error e =>
      rw [show (x :: xs) ++ ys = x :: (xs ++ ys) from rfl, pass1Go_cons, hx] at h
      simp [bind, Except.bind] at h
    | ok r1 =>
      have hx2 : pass1Line funcs dbg st x = .ok (r1.1, r1.2) := by rw [hx]
      obtain ⟨o2, hrest, hout⟩ :=
        pass1Go_cons_ok funcs dbg st r1.2 st2 x (xs ++ ys) out r1.1 hx2 (by exact h)
      obtain ⟨oa, stm, ob, ha, hb, hsplit⟩ := ih ys r1.2 o2 st2 hrest
      refine ⟨r1.1 ++ oa, stm, ob, ?_, hb, by rw [hout, hsplit, List.append_assoc]⟩
      rw [pass1Go_cons, hx2]
      show (pass1Go funcs dbg r1.2 xs >>= fun r2 => Except.ok (r1.1 ++ r2.1, r2.2)) = _
      rw [ha]
      rfl

theorem pass1Go_body (funcs : List (String × Int)) (dbg : Bool) :
    ∀ (b : List PLine) (st : Pass1State) (m0 : List (String × Nat)) (out : List OLine)
      (st2 : Pass1State),
      (∀ l ∈ b, noDelim l) →
      dictGet st.labels st.funcIdx = some m0 →
      pass1Go funcs dbg st b = .ok (out, st2) →
      st2 = ⟨st.funcIdx, (autoLabelsGo m0 st.autoId b).2,
             dictSet st.labels st.funcIdx (autoLabelsGo m0 st.autoId b).1⟩ ∧
      (∀ ind e, PLine.pseudo ind (.autopushltor0 e) ∈ b →
        OLine.deferredPush ind (mangleExpr st.funcIdx e) ∈ out) := by
  intro b
  induction b with
  | nil =>
    intro st m0 out st2 hnd hget hrun
    have h1 : [] = out ∧ st = st2 := by
      simpa [pass1Go, Prod.ext_iff] using hrun
    constructor
    · rw [← h1.2]
      show st = ⟨st.funcIdx, st.autoId, dictSet st.labels st.funcIdx m0⟩
      rw [dictSet_get_self st.labels st.funcIdx m0 hget]
    · intro ind e hm; simp at hm
  | cons l rest ih =>
    intro st m0 out st2 hnd hget hrun
    cases hl : pass1Line funcs dbg st l with
    | error e0 =>
      rw [pass1Go_cons, hl] at hrun
      simp [bind, Except.bind] at hrun
    | ok r1 =>
      have hl2 : pass1Line funcs dbg st l = .ok (r1.1, r1.2) := by rw [hl]
      obtain ⟨o2, hrest, hout⟩ :=
        pass1Go_cons_ok funcs dbg st r1.2 st2 l rest out r1.1 hl2 hrun
      have hndl := hnd l (by simp)
      have hndrest : ∀ x ∈ rest, noDelim x := fun x hx => hnd x (List.mem_cons_of_mem _ hx)
      have neutral :
          r1.2 = st →
          autoLabelsGo m0 st.autoId (l :: rest) = autoLabelsGo m0 st.autoId rest →
          (∀ ind e, PLine.pseudo ind (.autopushltor0 e) = l →
            OLine.deferredPush ind (mangleExpr st.funcIdx e) ∈ r1.1) →
          st2 = ⟨st.funcIdx, (autoLabelsGo m0 st.autoId (l :: rest)).2,
                 dictSet st.labels st.funcIdx (autoLabelsGo m0 st.autoId (l :: rest)).1⟩ ∧
          (∀ ind e, PLine.pseudo ind (.autopushltor0 e) ∈ (l :: rest) →
            OLine.deferredPush ind (mangleExpr st.funcIdx e) ∈ out) := by
        intro hstate hskip hheadmem
        rw [hstate] at hrest
        obtain ⟨hst2, hmem⟩ := ih st m0 o2 st2 hndrest hget hrest
        constructor
        · rw [hst2, hskip]
        · intro ind2 e2 hm
          rcases List.mem_cons.mp hm with hc | hc
          · rw [hout]; exact List.mem_append_left _ (hheadmem ind2 e2 hc)
          · rw [hout]; exact List.mem_append_right _ (hmem ind2 e2 hc)
      cases l with
      | raw s =>
        exact neutral (pass1Line_state funcs dbg st r1.2 _ r1.1 hndl (by simp) hl2) rfl
          (fun ind e hc => absurd hc (by simp))
      | pseudo ind p =>
        cases p with
        | func a =>
          exact neutral (pass1Line_state funcs dbg st r1.2 _ r1.1 hndl (by simp) hl2) rfl
            (fun ind2 e2 hc => absurd hc (by simp))
        | call a =>
          exact neutral (pass1Line_state funcs dbg st r1.2 _ r1.1 hndl (by simp) hl2) rfl
            (fun ind2 e2 hc => absurd hc (by simp))
        | pushl8 a =>
          exact neutral (pass1Line_state funcs dbg st r1.2 _ r1.1 hndl (by simp) hl2) rfl
            (fun ind2 e2 hc => absurd hc (by simp))
        | pushl64 a =>
          exact neutral (pass1Line_state funcs dbg st r1.2 _ r1.1 hndl (by simp) hl2) rfl
            (fun ind2 e2 hc => absurd hc (by simp))
        | autoliteral e =>
          exact neutral (pass1Line_state funcs dbg st r1.2 _ r1.1 hndl (by simp) hl2) rfl
            (fun ind2 e2 hc => absurd hc (by simp))
        | unknownOp nm a =>
          exact neutral (pass1Line_state funcs dbg st r1.2 _ r1.1 hndl (by simp) hl2) rfl
            (fun ind2 e2 hc => absurd hc (by simp))
        | autopushltor0 e =>
          refine neutral (pass1Line_state funcs dbg st r1.2 _ r1.1 hndl (by simp) hl2) rfl ?_
          intro ind2 e2 hc
          have h1 : ind2 = ind ∧ e2 = e := by
            have := hc
            simp [PLine.pseudo.injEq, PPseudo.autopushltor0.injEq] at this
            exact ⟨this.1, this.2⟩
          rw [h1.1, h1.2]
          exact pass1Line_push funcs dbg st r1.2 ind e r1.1 hndl hl2
        | autolabel arg =>
          have hstate := pass1Line_autolabel funcs dbg st r1.2 ind arg r1.1 m0 hndl hget hl2
          cases hname : extractLabelName arg with
          | none =>
            rw [hname] at hstate
            refine neutral hstate ?_ (fun ind2 e2 hc => absurd hc (by simp))
            show (match extractLabelName arg with
                  | some n => autoLabelsGo (dictSet m0 n st.autoId) (st.autoId + 1) rest
                  | none => autoLabelsGo m0 st.autoId rest) = _
            rw [hname]
          | some n =>
            rw [hname] at hstate
            rw [hstate] at hrest
            have hget2 : dictGet (dictSet st.labels st.funcIdx (dictSet m0 n st.autoId))
                st.funcIdx = some (dictSet m0 n st.autoId) :=
              dictGet_set_self st.labels st.funcIdx (dictSet m0 n st.autoId)
            obtain ⟨hst2, hmem⟩ := ih ⟨st.funcIdx, st.autoId + 1,
              dictSet st.labels st.funcIdx (dictSet m0 n st.autoId)⟩
              (dictSet m0 n st.autoId) o2 st2 hndrest hget2 hrest
            have hskip : autoLabelsGo m0 st.autoId (PLine.pseudo ind (.autolabel arg) :: rest)
                = autoLabelsGo (dictSet m0 n st.autoId) (st.autoId + 1) rest := by
              show (match extractLabelName arg with
                    | some n => autoLabelsGo (dictSet m0 n st.autoId) (st.autoId + 1) rest
                    | none => autoLabelsGo m0 st.autoId rest) = _
              rw [hname]
            constructor
            · rw [hst2, hskip]
              have : dictSet (dictSet st.labels st.funcIdx (dictSet m0 n st.autoId)) st.funcIdx
                  (autoLabelsGo (dictSet m0 n st.autoId) (st.autoId + 1) rest).1
                  = dictSet st.labels st.funcIdx
                      (autoLabelsGo (dictSet m0 n st.autoId) (st.autoId + 1) rest).1 :=
                dictSet_set_self st.labels st.funcIdx _ _
              rw [this]
            · intro ind2 e2 hm
              rcases List.mem_cons.mp hm with hc | hc
              · exact absurd hc (by simp)
              · rw [hout]; exact List.mem_append_right _ (hmem ind2 e2 hc)

theorem mem_dictSet {α β : Type} [BEq α] :
    ∀ (d : List (α × β)) (k : α) (v : β) (p : α × β),
      p ∈ dictSet d k v → p ∈ d ∨ p = (k, v) := by
  intro d
  induction d with
  | nil => intro k v p hp; simp [dictSet] at hp; exact Or.inr hp
  | cons q rest ih =>
    intro k v p hp
    obtain ⟨a, b⟩ := q
    by_cases h : a == k
    · simp [dictSet, h] at hp
      rcases hp with hp | hp
      · exact Or.inr (by rw [hp])
      · exact Or.inl (List.mem_cons_of_mem _ hp)
    · simp [dictSet, h] at hp
      rcases hp with hp | hp
      · exact Or.inl (by simp [hp])
      · rcases ih k v p hp with hc | hc
        · exact Or.inl (List.mem_cons_of_mem _ hc)
        · exact Or.inr hc

theorem dictGet_mem {α β : Type} [BEq α] [LawfulBEq α] :
    ∀ (d : List (α × β)) (k : α) (v : β), dictGet d k = some v → (k, v) ∈ d := by
  intro d
  induction d with
  | nil => intro k v h; simp [dictGet] at h
  | cons q rest ih =>
    intro k v h
    obtain ⟨a, b⟩ := q
    by_cases ha : a == k
    · have hak : a = k := eq_of_beq ha
      subst hak
      simp [dictGet] at h
      simp [h]
    · simp [dictGet, ha] at h
      exact List.mem_cons_of_mem _ (ih k v h)

theorem autoLabelsGo_inv :
    ∀ (b : List PLine) (m : List (String × Nat)) (aid : Nat),
      (∀ p ∈ m, p.2 < aid) →
      (∀ p q, p ∈ m → q ∈ m → p.2 = q.2 → p.1 = q.1) →
      (∀ p ∈ (autoLabelsGo m aid b).1, p.2 < (autoLabelsGo m aid b).2) ∧
      (∀ p q, p ∈ (autoLabelsGo m aid b).1 → q ∈ (autoLabelsGo m aid b).1 →
        p.2 = q.2 → p.1 = q.1) := by
  intro b
  induction b with
  | nil => intro m aid hb hi; exact ⟨hb, hi⟩
  | cons l rest ih =>
    intro m aid hb hi
    cases l with
    | raw s => exact ih m aid hb hi
    | pseudo ind p =>
      cases p with
      | func a => exact ih m aid hb hi
      | call a => exact ih m aid hb hi
      | pushl8 a => exact ih m aid hb hi
      | pushl64 a => exact ih m aid hb hi
      | autopushltor0 e => exact ih m aid hb hi
      | autoliteral e => exact ih m aid hb hi
      | unknownOp nm a => exact ih m aid hb hi
      | autolabel arg =>
        have hred : autoLabelsGo m aid (PLine.pseudo ind (.autolabel arg) :: rest)
            = (match extractLabelName arg with
               | some n => autoLabelsGo (dictSet m n aid) (aid + 1) rest
               | none => autoLabelsGo m aid rest) := rfl
        rw [hred]
        cases hname : extractLabelName arg with
        | none => exact ih m aid hb hi
        | some n =>
          have hb2 : ∀ p ∈ dictSet m n aid, p.2 < aid + 1 := by
            intro p hp
            rcases mem_dictSet m n aid p hp with hc | hc
            · exact Nat.lt_succ_of_lt (hb p hc)
            · rw [hc]; exact Nat.lt_succ_self aid
          have hi2 : ∀ p q, p ∈ dictSet m n aid → q ∈ dictSet m n aid →
              p.2 = q.2 → p.1 = q.1 := by
            intro p q hp hq hpq
            rcases mem_dictSet m n aid p hp with hcp | hcp
            · rcases mem_dictSet m n aid q hq with hcq | hcq
              · exact hi p q hcp hcq hpq
              · exfalso
                have h3 := hb p hcp
                rw [hcq] at hpq
                simp at hpq
                omega
            · rcases mem_dictSet m n aid q hq with hcq | hcq
              · exfalso
                have h3 := hb q hcq
                rw [hcp] at hpq
                simp at hpq
                omega
              · rw [hcp, hcq]
          exact ih (dictSet m n aid) (aid + 1) hb2 hi2

theorem evalE_mangle (labels : List (Nat × List (String × Nat))) (i : Nat)
    (m : List (String × Nat)) (hget : dictGet labels i = some m) :
    ∀ e, cleanExpr e → (∀ n ∈ refsOf e, (dictGet m n).isSome) →
    evalE labels (mangleExpr i e) = .ok (valPure m e) := by
  intro e
  induction e with
  | num n => intro _ _; rfl
  | lref n =>
    intro _ hrefs
    have h1 : (dictGet m n).isSome := hrefs n (by simp [refsOf])
    obtain ⟨v, hv⟩ := Option.isSome_iff_exists.mp h1
    show (match dictGet labels i with
          | some m2 =>
            match dictGet m2 n with
            | some v => Except.ok ((v : Nat) : Int)
            | none => Except.error (PyErr.typeError "Symbol cannot be interpreted as int")
          | none => Except.error (PyErr.typeError "Symbol cannot be interpreted as int")) = _
    rw [hget]
    show (match dictGet m n with
          | some v => Except.ok ((v : Nat) : Int)
          | none => Except.error (PyErr.typeError "Symbol cannot be interpreted as int"))
        = Except.ok (((dictGet m n).getD 0 : Nat) : Int)
    rw [hv]
    rfl
  | msym j nm => intro hc; exact absurd hc (by simp [cleanExpr])
  | sym s => intro hc; exact absurd hc (by simp [cleanExpr])
  | add a b iha ihb =>
    intro hc hrefs
    have ha := iha hc.1 (fun n hn => hrefs n (by simp [refsOf]; exact Or.inl hn))
    have hb := ihb hc.2 (fun n hn => hrefs n (by simp [refsOf]; exact Or.inr hn))
    show (evalE labels (mangleExpr i a) >>= fun x =>
          evalE labels (mangleExpr i b) >>= fun y => Except.ok (x + y))
        = Except.ok (valPure m a + valPure m b)
    rw [ha, hb]
    rfl
  | mul a b iha ihb =>
    intro hc hrefs
    have ha := iha hc.1 (fun n hn => hrefs n (by simp [refsOf]; exact Or.inl hn))
    have hb := ihb hc.2 (fun n hn => hrefs n (by simp [refsOf]; exact Or.inr hn))
    show (evalE labels (mangleExpr i a) >>= fun x =>
          evalE labels (mangleExpr i b) >>= fun y => Except.ok (x * y))
        = Except.ok (valPure m a * valPure m b)
    rw [ha, hb]
    rfl

/-- C7: in a two-function program, `\autolabel` ids are assigned by a
per-function monotonic counter: the final label table holds exactly the two
per-function maps built by that counter (so ids are function-scoped), ids are
unique within each function, every `\autopushltor0` expression of function `i`
is deferred with its references mangled to function `i`'s symbols, and pass-2
evaluation of such a mangled expression resolves every reference through
function `i`'s own map — never the other function's. -/
theorem c7_label_scoping (funcs : List (String × Int)) (dbg : Bool)
    (b0 b1 : List PLine) (out : List OLine) (stF : Pass1State)
    (hb0 : ∀ l ∈ b0, noDelim l) (hb1 : ∀ l ∈ b1, noDelim l)
    (hrun : pass1 funcs dbg (twoFuncProgram b0 b1) = .ok (out, stF)) :
    stF.labels = [(0, (autoLabelsGo [] 0 b0).1), (1, (autoLabelsGo [] 0 b1).1)] ∧
    (∀ ind e, PLine.pseudo ind (.autopushltor0 e) ∈ b0 →
      OLine.deferredPush ind (mangleExpr 0 e) ∈ out) ∧
    (∀ ind e, PLine.pseudo ind (.autopushltor0 e) ∈ b1 →
      OLine.deferredPush ind (mangleExpr 1 e) ∈ out) ∧
    (∀ e, cleanExpr e →
      ((∀ n ∈ refsOf e, (dictGet (autoLabelsGo [] 0 b0).1 n).isSome) →
        evalE stF.labels (mangleExpr 0 e) = .ok (valPure (autoLabelsGo [] 0 b0).1 e)) ∧
      ((∀ n ∈ refsOf e, (dictGet (autoLabelsGo [] 0 b1).1 n).isSome) →
        evalE stF.labels (mangleExpr 1 e) = .ok (valPure (autoLabelsGo [] 0 b1).1 e))) ∧
    (∀ b, b = b0 ∨ b = b1 →
      ∀ n1 n2 v, dictGet (autoLabelsGo [] 0 b).1 n1 = some v →
        dictGet (autoLabelsGo [] 0 b).1 n2 = some v → n1 = n2) := by
  have hline_st : ∀ st : Pass1State,
      pass1Line funcs dbg st (.raw "startfunc")
        = .ok ([.raw "startfunc"],
               ⟨st.funcIdx, st.autoId, dictSet st.labels st.funcIdx []⟩) :=
    fun st => rfl
  have hline_en : ∀ st : Pass1State,
      pass1Line funcs dbg st (.raw "endfunc")
        = .ok ([.raw "endfunc"], ⟨st.funcIdx + 1, 0, st.labels⟩) :=
    fun st => rfl
  have hrun2 : pass1Go funcs dbg ⟨0, 0, []⟩
      (PLine.raw "startfunc" :: (b0 ++ (PLine.raw "endfunc" :: PLine.raw "startfunc"
        :: (b1 ++ [PLine.raw "endfunc"])))) = .ok (out, stF) := by
    have hsh : twoFuncProgram b0 b1
        = PLine.raw "startfunc" :: (b0 ++ (PLine.raw "endfunc" :: PLine.raw "startfunc"
            :: (b1 ++ [PLine.raw "endfunc"]))) := by
      simp [twoFuncProgram]
    rw [← hsh]
    exact hrun
  obtain ⟨oA, hrestA, houtA⟩ :=
    pass1Go_cons_ok funcs dbg ⟨0, 0, []⟩ ⟨0, 0, [(0, [])]⟩ stF (.raw "startfunc")
      (b0 ++ (PLine.raw "endfunc" :: PLine.raw "startfunc" :: (b1 ++ [PLine.raw "endfunc"])))
      out [.raw "startfunc"] (hline_st ⟨0, 0, []⟩) hrun2
  obtain ⟨oB0, stm0, oT2, hB0, hT2, hsplit0⟩ :=
    pass1Go_append funcs dbg b0
      (PLine.raw "endfunc" :: PLine.raw "startfunc" :: (b1 ++ [PLine.raw "endfunc"]))
      ⟨0, 0, [(0, [])]⟩ oA stF hrestA
  obtain ⟨hstm0, hmem0⟩ :=
    pass1Go_body funcs dbg b0 ⟨0, 0, [(0, [])]⟩ [] oB0 stm0 hb0 (by rfl) hB0
  subst hstm0
  obtain ⟨oT3, hrestB, houtB⟩ :=
    pass1Go_cons_ok funcs dbg
      ⟨0, (autoLabelsGo [] 0 b0).2, [(0, (autoLabelsGo [] 0 b0).1)]⟩
      ⟨1, 0, [(0, (autoLabelsGo [] 0 b0).1)]⟩ stF (.raw "endfunc")
      (PLine.raw "startfunc" :: (b1 ++ [PLine.raw "endfunc"])) oT2 [.raw "endfunc"]
      (hline_en _) hT2
  obtain ⟨oT4, hrestC, houtC⟩ :=
    pass1Go_cons_ok funcs dbg
      ⟨1, 0, [(0, (autoLabelsGo [] 0 b0).1)]⟩
      ⟨1, 0, [(0, (autoLabelsGo [] 0 b0).1), (1, [])]⟩ stF (.raw "startfunc")
      (b1 ++ [PLine.raw "endfunc"]) oT3 [.raw "startfunc"] (hline_st _) hrestB
  obtain ⟨oB1, stm1, oT5, hB1, hT5, hsplit1⟩ :=
    pass1Go_append funcs dbg b1 [PLine.raw "endfunc"]
      ⟨1, 0, [(0, (autoLabelsGo [] 0 b0).1), (1, [])]⟩ oT4 stF hrestC
  obtain ⟨hstm1, hmem1⟩ :=
    pass1Go_body funcs dbg b1 ⟨1, 0, [(0, (autoLabelsGo [] 0 b0).1), (1, [])]⟩ [] oB1 stm1
      hb1 (by rfl) hB1
  subst hstm1
  obtain ⟨oT6, hrestD, houtD⟩ :=
    pass1Go_cons_ok funcs dbg
      ⟨1, (autoLabelsGo [] 0 b1).2,
       [(0, (autoLabelsGo [] 0 b0).1), (1, (autoLabelsGo [] 0 b1).1)]⟩
      ⟨2, 0, [(0, (autoLabelsGo [] 0 b0).1), (1, (autoLabelsGo [] 0 b1).1)]⟩ stF
      (.raw "endfunc") [] oT5 [.raw "endfunc"] (hline_en _) hT5
  have hfin : ([] : List OLine) = oT6 ∧
      (⟨2, 0, [(0, (autoLabelsGo [] 0 b0).1), (1, (autoLabelsGo [] 0 b1).1)]⟩ : Pass1State)
        = stF := by
    simpa [pass1Go, Prod.ext_iff] using hrestD
  have hstF : stF
      = ⟨2, 0, [(0, (autoLabelsGo [] 0 b0).1), (1, (autoLabelsGo [] 0 b1).1)]⟩ :=
    hfin.2.symm
  have hlab : stF.labels
      = [(0, (autoLabelsGo [] 0 b0).1), (1, (autoLabelsGo [] 0 b1).1)] := by
    rw [hstF]
  refine ⟨hlab, ?_, ?_, ?_, ?_⟩
  · intro ind e hm
    rw [houtA, hsplit0]
    exact List.mem_append_right _ (List.mem_append_left _ (hmem0 ind e hm))
  · intro ind e hm
    rw [houtA, hsplit0, houtB, houtC, hsplit1]
    exact List.mem_append_right _ (List.mem_append_right _ (List.mem_append_right _
      (List.mem_append_right _ (List.mem_append_left _ (hmem1 ind e hm)))))
  · intro e hc
    have hg0 : dictGet stF.labels 0 = some (autoLabelsGo [] 0 b0).1 := by
      rw [hlab]; rfl
    have hg1 : dictGet stF.labels 1 = some (autoLabelsGo [] 0 b1).1 := by
      rw [hlab]; rfl
    exact ⟨evalE_mangle stF.labels 0 (autoLabelsGo [] 0 b0).1 hg0 e hc,
           evalE_mangle stF.labels 1 (autoLabelsGo [] 0 b1).1 hg1 e hc⟩
  · intro b _ n1 n2 v h1 h2
    obtain ⟨_, hinj⟩ := autoLabelsGo_inv b [] 0 (by simp) (by simp)
    exact hinj (n1, v) (n2, v) (dictGet_mem _ n1 v h1) (dictGet_mem _ n2 v h2) rfl

theorem c7_label_scoping_witness :
    evalE [(0, [("loop", 0)]), (1, [("x", 0), ("loop", 1)])] (mangleExpr 0 (.lref "loop"))
      = .ok 0 ∧
    evalE [(0, [("loop", 0)]), (1, [("x", 0), ("loop", 1)])] (mangleExpr 1 (.lref "loop"))
      = .ok 1 := by
  have h0 : ∀ l ∈ demoBody0, noDelim l := by
    intro l hl
    simp [demoBody0] at hl
    rcases hl with h | h
    · rw [h]; exact ⟨by decide, by decide⟩
    · rw [h]; exact ⟨by decide, by decide⟩
  have h1 : ∀ l ∈ demoBody1, noDelim l := by
    intro l hl
    simp [demoBody1] at hl
    rcases hl with h | h | h
    · rw [h]; exact ⟨by decide, by decide⟩
    · rw [h]; exact ⟨by decide, by decide⟩
    · rw [h]; exact ⟨by decide, by decide⟩
  have hmain := c7_label_scoping [] false demoBody0 demoBody1
    [.raw "startfunc", .raw "$\x7b0\x7d", .raw "deflabel",
     .deferredPush "" (.msym 0 "loop"), .raw "endfunc", .raw "startfunc",
     .raw "$\x7b0\x7d", .raw "deflabel", .raw "$\x7b1\x7d", .raw "deflabel",
     .deferredPush "" (.msym 1 "loop"), .raw "endfunc"]
    ⟨2, 0, [(0, [("loop", 0)]), (1, [("x", 0), ("loop", 1)])]⟩ h0 h1 (by rfl)
  have he := (hmain.2.2.2.1 (.lref "loop") trivial)
  exact ⟨he.1 (by decide), he.2 (by decide)⟩

end Lan22
